import Mathlib

/-!
cachemover: buffer slices and record headers.

A shallow embedding of `src/utils/memcache_utils.h` (classes `McData`,
`MemcachedUtils`, `MetaBufferSlice`, `DataBufferSlice`).

Memory is a flat list of bytes (`List Nat`, address `a` holds `mem[a]`); a
pointer is an address into it.  The slice objects hold addresses only, the
bytes they look at are passed to every operation next to the object.
-/

namespace memcachedumper

/-! ## Machine integers -/

/-- Conversion of an integer to `int32_t` / `int` (two's complement, modulo 2^32). -/
def toInt32 (x : Int) : Int := (x + 2147483648) % 4294967296 - 2147483648

/-- Conversion of an integer to `uint32_t`. -/
def toUInt32 (x : Int) : Nat := (x % 4294967296).toNat

/-- Conversion of an integer to `size_t` (64 bit). -/
def toSizeT (x : Int) : Nat := (x % 18446744073709551616).toNat

/-- Conversion of an integer to `unsigned char`. -/
def toUChar (x : Int) : Nat := (x % 256).toNat

/-! ## The C library routines the slices call -/

/-- Bytes of a string literal. -/
def lit (s : String) : List Nat := s.toList.map Char.toNat

/-- The worker of `strstr`: `hay` is the memory from the start pointer on. The
haystack is the C string found there, so the scan ends at the first NUL byte;
the end of the modelled memory ends it as well. The result is the offset of
the first occurrence of `needle`. -/
def strstrFrom (needle : List Nat) : List Nat → Option Nat
  | [] => if needle.isPrefixOf [] then some 0 else none
  | h :: hs =>
    if needle.isPrefixOf (h :: hs) then some 0
    else if h = 0 then none
    else (strstrFrom needle hs).map (· + 1)

/-- `strstr(p, needle)` over memory `mem`: the address of the first occurrence
of `needle` in the C string at address `p`, or `none` for a null result. -/
def strstr (mem : List Nat) (p : Nat) (needle : List Nat) : Option Nat :=
  (strstrFrom needle (mem.drop p)).map (· + p)

/-- The worker of `memmem`: offset of the first occurrence of `needle` in the
byte block `hay` (NUL bytes are ordinary bytes here). -/
def memmemFrom (needle : List Nat) : List Nat → Option Nat
  | [] => if needle.isPrefixOf [] then some 0 else none
  | h :: hs =>
    if needle.isPrefixOf (h :: hs) then some 0
    else (memmemFrom needle hs).map (· + 1)

/-- `memmem(p, len, needle, needle.length)` over memory `mem`. -/
def memmem (mem : List Nat) (p : Nat) (len : Nat) (needle : List Nat) : Option Nat :=
  (memmemFrom needle ((mem.drop p).take len)).map (· + p)

/-- Whether `strncmp(s1, s2, n)` is zero: the two C strings agree on their first
`n` bytes or up to and including a common NUL. A list that has run out reads as
NUL (this is how the literal `s2` ends). -/
def strncmpIsZero (s1 s2 : List Nat) : Nat → Bool
  | 0 => true
  | n + 1 =>
    if s1.headD 0 ≠ s2.headD 0 then false
    else if s1.headD 0 = 0 then true
    else strncmpIsZero s1.tail s2.tail n

/-- The memory from address `a` on; an address below the modelled memory (the
pointer arithmetic of the caller went under zero) has nothing to read. -/
def memAt (mem : List Nat) (a : Int) : List Nat :=
  if 0 ≤ a then mem.drop a.toNat else []

/-! ## Slice -/

/-- Modelled from the spec: the base class `Slice` of `utils/slice.h`, which is
not part of the sources at hand. The spec's ParseWindow is "a view over
`[window_start, window_start+len)` of a buffer": `data` is the address
`data()` of the first byte and `size` is `size()`, the length of the view. -/
structure Slice where
  data : Nat
  size : Nat
deriving DecidableEq, Repr

/-! ## DataBufferSlice -/

/-- The enum `DataBufferSlice::ResponseFormatState`. -/
inductive ResponseFormatState where
  | VALUE_DELIM
  | KEY_NAME
  | FLAGS
  | NUM_DATA_BYTES
  | DATA
  | TOTAL_NUM_STATES
deriving DecidableEq, Repr

namespace ResponseFormatState

/-- The enumerator values, `static_cast<int16_t>(state)`. -/
def toInt16 : ResponseFormatState → Int
  | VALUE_DELIM => 0
  | KEY_NAME => 1
  | FLAGS => 2
  | NUM_DATA_BYTES => 3
  | DATA => 4
  | TOTAL_NUM_STATES => 5

/-- The cast `static_cast<ResponseFormatState>(v)`, for the values `v` that name
an enumerator (any other value is mapped to the sentinel). -/
def ofInt (v : Int) : ResponseFormatState :=
  if v = 0 then VALUE_DELIM
  else if v = 1 then KEY_NAME
  else if v = 2 then FLAGS
  else if v = 3 then NUM_DATA_BYTES
  else if v = 4 then DATA
  else TOTAL_NUM_STATES

end ResponseFormatState

/-- The class `DataBufferSlice`: the `Slice` base and the three members. -/
structure DataBufferSlice extends Slice where
  parse_state : ResponseFormatState
  pending_data : Nat
  start_copy_pos : Nat
deriving DecidableEq, Repr

namespace DataBufferSlice

/-- The constructor `DataBufferSlice(d, n)`. -/
def new (d n : Nat) : DataBufferSlice :=
  { data := d, size := n, parse_state := .VALUE_DELIM, pending_data := d, start_copy_pos := 0 }

/-- `buf_begin_fill()`. -/
def buf_begin_fill (s : DataBufferSlice) : Nat := s.data + s.start_copy_pos

/-- `free_bytes()`. -/
def free_bytes (s : DataBufferSlice) : Nat := toSizeT ((s.size : Int) - s.start_copy_pos)

/-- `StepStateMachine()`: `(cur_state + 1) % total_states`, with the remainder of C
(truncated division, `Int.tmod`). -/
def StepStateMachine (s : DataBufferSlice) : DataBufferSlice :=
  let cur_state : Int := s.parse_state.toInt16
  let total_states : Int := ResponseFormatState.TOTAL_NUM_STATES.toInt16
  { s with parse_state := ResponseFormatState.ofInt (Int.tmod (cur_state + 1) total_states) }

/-- `MarkProcessedUntil(buf_ptr)`. -/
def MarkProcessedUntil (s : DataBufferSlice) (buf_ptr : Nat) : DataBufferSlice :=
  StepStateMachine { s with pending_data := buf_ptr }

/-- `bytes_pending()`: the pointer difference `&data()[size()] - pending_data_`,
returned as `int32_t`. -/
def bytes_pending (s : DataBufferSlice) : Int :=
  toInt32 ((s.data : Int) + s.size - s.pending_data)

/-- `next_value_delim()`: the result pointer (`none` for null) and the object
afterwards. The `int32_t` count is passed to `memmem` as a `size_t`. -/
def next_value_delim (mem : List Nat) (s : DataBufferSlice) : Option Nat × DataBufferSlice :=
  let n_pending : Int := s.bytes_pending
  match memmem mem s.pending_data (toSizeT n_pending) (lit "VALUE ") with
  | some pos => (some pos, s.MarkProcessedUntil (pos + 6))
  | none => (none, s)

/-- `next_whitespace()`. -/
def next_whitespace (mem : List Nat) (s : DataBufferSlice) : Option Nat × DataBufferSlice :=
  match strstr mem s.pending_data (lit " ") with
  | some pos => (some pos, s.MarkProcessedUntil (pos + 1))
  | none => (none, s)

/-- `next_crlf()`. -/
def next_crlf (mem : List Nat) (s : DataBufferSlice) : Option Nat × DataBufferSlice :=
  match strstr mem s.pending_data (lit "\r\n") with
  | some pos => (some pos, s.MarkProcessedUntil (pos + 2))
  | none => (none, s)

/-- The sum `p + n` of a pointer of the slice and a `size_t`. Pointers are 64-bit
addresses: for every slice whose window lies in the 64-bit address space
(`data + size < 2^64`, as for every slice of the program) the result is the sum
modulo 2^64. For a window that ends at 2^64 or beyond, which no 64-bit machine
holds, the addresses are taken as unbounded numbers and the sum is exact. -/
def ptrAdd (s : DataBufferSlice) (p n : Nat) : Nat :=
  if s.data + s.size < 18446744073709551616 then (p + n) % 18446744073709551616 else p + n

/-- `process_value(value_size)`. The sums with the `size_t` argument are pointer
sums (`ptrAdd`). The returned pointer is computed from `pending_data_` after
`MarkProcessedUntil` has moved it. -/
def process_value (s : DataBufferSlice) (value_size : Nat) : Option Nat × DataBufferSlice :=
  if s.ptrAdd s.pending_data value_size > s.data + s.size then (none, s)
  else
    let s1 := s.MarkProcessedUntil (s.ptrAdd (s.ptrAdd s.pending_data value_size) 2)
    (some (s.ptrAdd s1.pending_data value_size), s1)

/-- `reached_end()`: `!strncmp(&data()[size() - 5], "END\r\n", 5)`. -/
def reached_end (mem : List Nat) (s : DataBufferSlice) : Bool :=
  strncmpIsZero (memAt mem ((s.data : Int) + s.size - 5)) (lit "END\r\n") 5

/-- `reached_error()`: `!strncmp(&data()[size() - 7], "ERROR\r\n", 7)`. -/
def reached_error (mem : List Nat) (s : DataBufferSlice) : Bool :=
  strncmpIsZero (memAt mem ((s.data : Int) + s.size - 7)) (lit "ERROR\r\n") 7

end DataBufferSlice

/-! ## The text of a value response -/

/-- Worker of `decimal`: the digits of `n` are pushed in front of `acc`, least
significant first; `fuel` bounds the number of digits. -/
def decimalAux : Nat → Nat → List Nat → List Nat
  | 0, _, acc => acc
  | fuel + 1, n, acc =>
    if n < 10 then (48 + n) :: acc
    else decimalAux fuel (n / 10) ((48 + n % 10) :: acc)

/-- The decimal text of `n` in ASCII, as memcached prints the byte count. -/
def decimal (n : Nat) : List Nat := decimalAux (n + 1) n []

/-- The bytes of memory `mem` at the addresses `[a, b)`. -/
def bytesBetween (mem : List Nat) (a b : Nat) : List Nat := (mem.drop a).take (b - a)

/-- The response to a get of one key: `VALUE <k> <f> <len>\r\n<v>\r\nEND\r\n`. -/
def valueResponse (k f v : List Nat) : List Nat :=
  lit "VALUE " ++ k ++ lit " " ++ f ++ lit " " ++ decimal v.length ++ lit "\r\n" ++ v
    ++ lit "\r\nEND\r\n"

namespace DataBufferSlice

/-- The successor in the cycle of the five parse states. -/
def nextState : ResponseFormatState → ResponseFormatState
  | .VALUE_DELIM => .KEY_NAME
  | .KEY_NAME => .FLAGS
  | .FLAGS => .NUM_DATA_BYTES
  | .NUM_DATA_BYTES => .DATA
  | .DATA => .VALUE_DELIM
  | .TOTAL_NUM_STATES => .KEY_NAME

end DataBufferSlice

/-! ## Writes to memory -/

/-- Memory `mem` with the bytes `bs` stored from address `dst` on. A store
outside the modelled memory is dropped. -/
def writeBytes (mem : List Nat) (dst : Nat) (bs : List Nat) : List Nat :=
  mem.take dst ++ bs.take (mem.length - dst) ++ mem.drop (dst + bs.length)

/-- `memcpy(dst, src, n)`: the `n` bytes found at `src` are stored at `dst`. C
gives `memcpy` no result when the two ranges overlap; the result is then
`none`. -/
def memcpy (mem : List Nat) (dst src n : Nat) : Option (List Nat) :=
  if dst < src + n ∧ src < dst + n then none
  else some (writeBytes mem dst ((mem.drop src).take n))

/-- `bzero(dst, n)`. -/
def bzero (mem : List Nat) (dst n : Nat) : List Nat :=
  mem.take dst ++ List.replicate (min n (mem.length - dst)) 0 ++ mem.drop (dst + n)

/-! ## MetaBufferSlice -/

/-- The class `MetaBufferSlice`: the `Slice` base and the three members. -/
structure MetaBufferSlice extends Slice where
  pending_data : Nat
  start_copy_pos : Nat
  slice_end : Nat
deriving DecidableEq, Repr

namespace MetaBufferSlice

/-- The constructor `MetaBufferSlice(d, n)`. -/
def new (d n : Nat) : MetaBufferSlice :=
  { data := d, size := n, pending_data := d, start_copy_pos := 0, slice_end := d + n }

/-- `buf_begin_fill()`. -/
def buf_begin_fill (s : MetaBufferSlice) : Nat := s.data + s.start_copy_pos

/-- `free_bytes()`: `size() - start_copy_pos_`, computed in `size_t`. -/
def free_bytes (s : MetaBufferSlice) : Nat := toSizeT ((s.size : Int) - s.start_copy_pos)

/-- `MarkProcessedUntil(buf_ptr)`. -/
def MarkProcessedUntil (s : MetaBufferSlice) (buf_ptr : Nat) : MetaBufferSlice :=
  { s with pending_data := buf_ptr }

/-- `next_key_pos()`: the result pointer (`none` for null) and the object
afterwards. -/
def next_key_pos (mem : List Nat) (s : MetaBufferSlice) : Option Nat × MetaBufferSlice :=
  match strstr mem s.pending_data (lit "key=") with
  | some pos => if pos < s.slice_end then (some pos, s.MarkProcessedUntil (pos + 4)) else (none, s)
  | none => (none, s)

/-- `next_exp_pos()`. -/
def next_exp_pos (mem : List Nat) (s : MetaBufferSlice) : Option Nat × MetaBufferSlice :=
  match strstr mem s.pending_data (lit "exp=") with
  | some pos => if pos < s.slice_end then (some pos, s.MarkProcessedUntil (pos + 4)) else (none, s)
  | none => (none, s)

/-- `next_la_pos()`. -/
def next_la_pos (mem : List Nat) (s : MetaBufferSlice) : Option Nat × MetaBufferSlice :=
  match strstr mem s.pending_data (lit "la=") with
  | some pos => if pos < s.slice_end then (some pos, s.MarkProcessedUntil (pos + 3)) else (none, s)
  | none => (none, s)

/-- `next_newline()`. -/
def next_newline (mem : List Nat) (s : MetaBufferSlice) : Option Nat × MetaBufferSlice :=
  match strstr mem s.pending_data (lit "\n") with
  | some pos => if pos < s.slice_end then (some pos, s.MarkProcessedUntil (pos + 1)) else (none, s)
  | none => (none, s)

/-- `CopyRemainingToStart(copy_from)`: the memory and the object afterwards; the
memory is `none` when the `memcpy` has no defined result. `num_bytes_to_copy` is
a `size_t`, `start_copy_pos_` a `uint32_t`. -/
def CopyRemainingToStart (mem : List Nat) (s : MetaBufferSlice) (copy_from : Nat) :
    Option (List Nat) × MetaBufferSlice :=
  let num_bytes_to_copy : Nat := toSizeT ((s.data : Int) + s.size - copy_from)
  let mem1 := memcpy mem s.data copy_from num_bytes_to_copy
  let s1 : MetaBufferSlice := { s with start_copy_pos := toUInt32 num_bytes_to_copy }
  (mem1.map (fun m => bzero m (s1.data + s1.start_copy_pos) s1.free_bytes), s1)

/-- `pending_data()`. -/
def pending_data_ptr (s : MetaBufferSlice) : Nat := s.pending_data

end MetaBufferSlice

/-! ## McData and MemcachedUtils -/

/-- The class `McData`, without the value bytes `data_` (no function modelled
here reads them). `expiry` is an `int32_t`, `flags` a `uint16_t`, `value_len` a
`size_t`, `get_attempts` an `int`. -/
structure McData where
  key : List Nat
  expiry : Int
  flags : Nat
  value_len : Nat
  get_complete : Bool
  complete : Bool
  get_attempts : Int
deriving DecidableEq, Repr

namespace MemcachedUtils

/-- `ConvertIntToBytes(int_param, out_bytes)`: the loop stores
`(unsigned char)(int_param >> (i * 8))` at index `out_bytes - i - 1`. The shift of
a negative `int` is the arithmetic one. -/
def ConvertIntToBytes (int_param : Int) (out_bytes : Nat) : List Nat :=
  (List.range out_bytes).foldl
    (fun byte_array i => byte_array.set (out_bytes - i - 1) (toUChar (int_param >>> (i * 8))))
    (List.replicate out_bytes 0)

/-- `ConvertUInt16ToBytes(uint16_param, out_bytes)`: the same loop; the
`uint16_t` is promoted to `int` for the shift. -/
def ConvertUInt16ToBytes (uint16_param : Nat) (out_bytes : Nat) : List Nat :=
  (List.range out_bytes).foldl
    (fun byte_array i =>
      byte_array.set (out_bytes - i - 1) (toUChar ((uint16_param : Int) >>> (i * 8))))
    (List.replicate out_bytes 0)

/-- `std::string::c_str()` read as a C string: the bytes before the first NUL. -/
def c_str (s : List Nat) : List Nat := s.takeWhile (· ≠ 0)

/-- `CraftMetadataString(key)`. `key().length()` and `ValueLength()` are
`size_t` values passed for an `int` parameter; `append(const char*)` appends a C
string. -/
def CraftMetadataString (key : McData) : List Nat :=
  ConvertIntToBytes (toInt32 key.key.length) 2
    ++ c_str key.key
    ++ ConvertIntToBytes key.expiry 4
    ++ ConvertUInt16ToBytes key.flags 4
    ++ ConvertIntToBytes (toInt32 key.value_len) 4

end MemcachedUtils

/-! ## Reading a record header back -/

/-- The fields of a record header. -/
structure RecordHeader where
  key : List Nat
  expiry : Int
  flags : Nat
  value_len : Nat
deriving DecidableEq, Repr

/-- The unsigned big-endian value of a byte string. -/
def bigEndian (bs : List Nat) : Nat := bs.foldl (fun acc b => acc * 256 + b) 0

/-- A reader for the documented layout of a record header, "2-byte big-endian
key length, that many key bytes, 4-byte big-endian expiry, 4-byte big-endian
flags, 4-byte big-endian value length"; the expiry is a signed 32-bit value.
The result is `none` when the bytes are not exactly one header. -/
def decodeHeader (bs : List Nat) : Option RecordHeader :=
  let keylen := bigEndian (bs.take 2)
  if bs.length = 2 + keylen + 12 then
    some { key := (bs.drop 2).take keylen
           expiry := toInt32 (bigEndian ((bs.drop (2 + keylen)).take 4))
           flags := bigEndian ((bs.drop (2 + keylen + 4)).take 4)
           value_len := bigEndian ((bs.drop (2 + keylen + 8)).take 4) }
  else none

/-- The header fields of a record. -/
def McData.header (r : McData) : RecordHeader :=
  { key := r.key, expiry := r.expiry, flags := r.flags, value_len := r.value_len }

/-! ## Scans as data -/

/-- The four scans of a `MetaBufferSlice`. -/
inductive MetaScan where
  | next_key_pos
  | next_exp_pos
  | next_la_pos
  | next_newline
deriving DecidableEq, Repr

namespace MetaScan

/-- The marker a scan looks for. -/
def marker : MetaScan → List Nat
  | next_key_pos => lit "key="
  | next_exp_pos => lit "exp="
  | next_la_pos => lit "la="
  | next_newline => lit "\n"

/-- The call of a scan on a slice. -/
def run (mem : List Nat) (s : MetaBufferSlice) : MetaScan → Option Nat × MetaBufferSlice
  | next_key_pos => s.next_key_pos mem
  | next_exp_pos => s.next_exp_pos mem
  | next_la_pos => s.next_la_pos mem
  | next_newline => s.next_newline mem

end MetaScan

/-- The four scans of a `DataBufferSlice`. -/
inductive DataScan where
  | next_value_delim
  | next_whitespace
  | next_crlf
  | process_value (value_size : Nat)
deriving DecidableEq, Repr

namespace DataScan

/-- The call of a scan on a slice. -/
def run (mem : List Nat) (s : DataBufferSlice) : DataScan → Option Nat × DataBufferSlice
  | next_value_delim => s.next_value_delim mem
  | next_whitespace => s.next_whitespace mem
  | next_crlf => s.next_crlf mem
  | process_value n => s.process_value n

end DataScan

/-! ## Runs of a DataBufferSlice -/

/-- `pos` is the first occurrence of `marker` in the C string at address `p` of
`mem`: the marker stands at `pos`, and every byte from `p` up to `pos` is not NUL
and does not start the marker. -/
def FirstOccurrence (mem : List Nat) (p : Nat) (marker : List Nat) (pos : Nat) : Prop :=
  p ≤ pos ∧ marker.isPrefixOf (mem.drop pos) = true ∧
    ∀ i, p ≤ i → i < pos → mem.getD i 0 ≠ 0 ∧ marker.isPrefixOf (mem.drop i) = false

/-! ## Runs of a MetaBufferSlice -/

/-- The scans `ops` called one after the other on the object `s` over memory
`mem`: the pointers returned, in order, and the object at the end. -/
def runMetaScans (mem : List Nat) : MetaBufferSlice → List MetaScan →
    List (Option Nat) × MetaBufferSlice
  | s, [] => ([], s)
  | s, op :: ops =>
    let r := op.run mem s
    let t := runMetaScans mem r.2 ops
    (r.1 :: t.1, t.2)

/-- The four calls that delimit one listing line `key=K exp=E la=L\n`. -/
def lineScans : List MetaScan :=
  [.next_key_pos, .next_exp_pos, .next_la_pos, .next_newline]

/-- A refill after a compaction: CopyRemainingToStart(copy_from), then the bytes
`sfx` read from the socket are stored at buf_begin_fill(). The result is the
memory (`none` when the compaction has no defined result) and the compacted
object. -/
def refillAfterCompaction (mem : List Nat) (s : MetaBufferSlice) (copy_from : Nat)
    (sfx : List Nat) : Option (List Nat) × MetaBufferSlice :=
  let c := s.CopyRemainingToStart mem copy_from
  (c.1.map (fun m => writeBytes m c.2.buf_begin_fill sfx), c.2)

/-! ## McData: the retry counter -/

/-- The macro `MAX_GET_ATTEMPTS`. -/
def MAX_GET_ATTEMPTS : Int := 3

namespace McData

/-- `set_get_complete(get_complete)`: `++get_attempts_` on an `int`, then the
flag is stored. An increment of `INT_MAX` has no defined result in C++; it is
taken modulo 2^32 here, as the machine does it. -/
def set_get_complete (r : McData) (get_complete : Bool) : McData :=
  { r with get_attempts := toInt32 (r.get_attempts + 1), get_complete := get_complete }

/-- `PossiblyEvicted()`. -/
def PossiblyEvicted (r : McData) : Bool := decide (r.get_attempts ≥ MAX_GET_ATTEMPTS)

/-- The record after the calls `set_get_complete(b)` for the `b` of `bs`, in
order. -/
def set_get_complete_all (r : McData) (bs : List Bool) : McData :=
  bs.foldl set_get_complete r

end McData

/-! ## MemcachedUtils: expiry test -/

/-- Conversion of an integer to `uint64_t`. -/
def toUInt64 (x : Int) : Nat := (x % 18446744073709551616).toNat

namespace MemcachedUtils

/-- `OnlyExpireAfter()`: the static `int only_expire_after_` returned as a
`uint64_t`. -/
def OnlyExpireAfter (only_expire_after : Int) : Nat := toUInt64 only_expire_after

/-- `KeyExpiresSoon(now, key_expiry)`: `key_expiry <= now + OnlyExpireAfter()`.
`now` is a `time_t` (signed 64 bit), `key_expiry` a `uint32_t`; the sum of a
`time_t` and a `uint64_t` is computed in `uint64_t`. The static
`only_expire_after_` is passed as a parameter. -/
def KeyExpiresSoon (only_expire_after : Int) (now : Int) (key_expiry : Nat) : Bool :=
  decide (key_expiry ≤ toUInt64 ((toUInt64 now : Int) + OnlyExpireAfter only_expire_after))

/-- The call of `KeyExpiresSoon` on the expiry of a record: the `int32_t` of
`McData::expiry()` is converted to the `uint32_t` parameter. -/
def KeyExpiresSoonOf (only_expire_after : Int) (now : Int) (expiry : Int) : Bool :=
  KeyExpiresSoon only_expire_after now (toUInt32 expiry)

end MemcachedUtils

/-! ## Big-endian fields -/

/-- The 2-byte big-endian field of `n`. -/
def BE16 (n : Nat) : List Nat := [n / 256 % 256, n % 256]

/-- The 4-byte big-endian field of `n`. -/
def BE32 (n : Nat) : List Nat := [n / 16777216 % 256, n / 65536 % 256, n / 256 % 256, n % 256]

/-- The two's complement of a signed 32-bit value, as an unsigned number. -/
def twosComplement32 (x : Int) : Nat := (x % 4294967296).toNat

/-! ## MemoryManager -/

/-- Modelled from the spec: the class `Status` of `utils/status.h`, which is not
part of the sources at hand; of it `mem_mgr.cc` uses `Status::OK()` and
`Status::OutOfMemoryError(msg)`, the spec's "fails with an out-of-memory
error". -/
inductive Status where
  | OK
  | OutOfMemoryError
deriving DecidableEq, Repr

/-- The class `MemoryManager` (its declaration, `utils/mem_mgr.h`, is not part of
the sources at hand; the members are those `mem_mgr.cc` uses): `chunk_size_`,
the `int` `num_chunks_` and the list `free_buffers_` of buffer addresses. -/
structure MemoryManager where
  chunk_size : Nat
  num_chunks : Int
  free_buffers : List Nat
deriving DecidableEq, Repr

namespace MemoryManager

/-- The constructor `MemoryManager(chunk_size, num_chunks)`. -/
def new (chunk_size : Nat) (num_chunks : Int) : MemoryManager :=
  { chunk_size := chunk_size, num_chunks := num_chunks, free_buffers := [] }

/-- The loop of `PreallocateChunks`, `remaining` iterations from index `i` on.
`malloc i` is the result of the `i`-th call of `malloc`, `none` for null. -/
def PreallocateLoop (malloc : Nat → Option Nat) :
    Nat → Nat → MemoryManager → Status × MemoryManager
  | _, 0, m => (Status.OK, m)
  | i, remaining + 1, m =>
    match malloc i with
    | none => (Status.OutOfMemoryError, m)
    | some buf =>
      PreallocateLoop malloc (i + 1) remaining { m with free_buffers := m.free_buffers ++ [buf] }

/-- `PreallocateChunks()`: `for (int i = 0; i < num_chunks_; ++i)`. -/
def PreallocateChunks (malloc : Nat → Option Nat) (m : MemoryManager) : Status × MemoryManager :=
  PreallocateLoop malloc 0 m.num_chunks.toNat m

/-- `GetBuffer()`: the buffer returned (`none` for null) and the manager
afterwards. -/
def GetBuffer (m : MemoryManager) : Option Nat × MemoryManager :=
  match m.free_buffers with
  | [] => (none, m)
  | buf :: rest => (some buf, { m with free_buffers := rest })

/-- `ReturnBuffer(buf)`. -/
def ReturnBuffer (m : MemoryManager) (buf : Nat) : MemoryManager :=
  { m with free_buffers := m.free_buffers ++ [buf] }

/-- `n` calls of `GetBuffer()`: the buffers returned, in order, and the manager
afterwards. -/
def GetBuffers : Nat → MemoryManager → List (Option Nat) × MemoryManager
  | 0, m => ([], m)
  | n + 1, m =>
    let r := m.GetBuffer
    let t := GetBuffers n r.2
    (r.1 :: t.1, t.2)

end MemoryManager

/-- A call on the pool. -/
inductive PoolCall where
  | get
  | ret (buf : Nat)
deriving DecidableEq, Repr

/-- A pool with its holders: the manager and the buffers that are outstanding
(handed out by `GetBuffer` and not yet returned), latest first. -/
structure PoolState where
  mgr : MemoryManager
  outstanding : List Nat
deriving DecidableEq, Repr

/-- One call: the result of `GetBuffer` (`none` for a `ReturnBuffer` and for a
null result) and the state afterwards. -/
def PoolState.step (s : PoolState) : PoolCall → Option Nat × PoolState
  | .get =>
    match s.mgr.GetBuffer with
    | (some buf, m) => (some buf, { mgr := m, outstanding := buf :: s.outstanding })
    | (none, m) => (none, { mgr := m, outstanding := s.outstanding })
  | .ret buf => (none, { mgr := s.mgr.ReturnBuffer buf, outstanding := s.outstanding.erase buf })

/-- A sequence of calls in which every `ReturnBuffer` returns a buffer that is
outstanding at that moment. -/
def PoolState.Valid : PoolState → List PoolCall → Prop
  | _, [] => True
  | s, .get :: cs => PoolState.Valid (s.step .get).2 cs
  | s, .ret buf :: cs => buf ∈ s.outstanding ∧ PoolState.Valid (s.step (.ret buf)).2 cs

/-- The state after a sequence of calls. -/
def PoolState.run (s : PoolState) (cs : List PoolCall) : PoolState :=
  cs.foldl (fun st c => (st.step c).2) s

/-- Whether a sequence of calls is valid can be computed. -/
instance PoolState.instDecidableValid :
    ∀ (s : PoolState) (cs : List PoolCall), Decidable (PoolState.Valid s cs)
  | _, [] => isTrue trivial
  | s, .get :: cs => PoolState.instDecidableValid (s.step .get).2 cs
  | s, .ret buf :: cs =>
    have := PoolState.instDecidableValid (s.step (.ret buf)).2 cs
    inferInstanceAs (Decidable (buf ∈ s.outstanding ∧ PoolState.Valid (s.step (.ret buf)).2 cs))

/-- The pool and its holders share out the buffers `bufs`. -/
def PoolInv (bufs : List Nat) (s : PoolState) : Prop :=
  (s.mgr.free_buffers ++ s.outstanding).Perm bufs

/-- The big-endian base-256 representation of `m` in `k` bytes: the digit of
weight `256^i` for `i = k-1, …, 0`. -/
def bigEndianBytes (k m : Nat) : List Nat :=
  (List.range k).reverse.map (fun i => m / 256 ^ i % 256)
/-! ## Lemmas on the library routines -/

theorem strstrFrom_skip (n0 : Nat) (ns rest : List Nat) :
    ∀ a : List Nat, (∀ b ∈ a, b ≠ 0 ∧ b ≠ n0) →
      strstrFrom (n0 :: ns) (a ++ ((n0 :: ns) ++ rest)) = some a.length := by
  intro a
  induction a with
  | nil =>
    intro _
    have h : (n0 :: ns).isPrefixOf ((n0 :: ns) ++ rest) = true := by
      rw [List.isPrefixOf_iff_prefix]
      exact List.prefix_append _ _
    simp only [List.nil_append, List.cons_append, List.length_nil] at h ⊢
    simp [strstrFrom, h]
  | cons x a ih =>
    intro hx
    have hx0 := hx x (List.mem_cons_self _ _)
    have ih1 := ih (fun b hb => hx b (List.mem_cons_of_mem _ hb))
    simp only [List.cons_append, strstrFrom, List.isPrefixOf, Bool.and_eq_true, beq_iff_eq]
    rw [if_neg (fun h => hx0.2 h.1.symm), if_neg hx0.1]
    simp only [List.cons_append] at ih1
    simp [ih1]

theorem strstr_skip (X a rest : List Nat) (n0 : Nat) (ns : List Nat)
    (ha : ∀ b ∈ a, b ≠ 0 ∧ b ≠ n0) :
    strstr (X ++ (a ++ ((n0 :: ns) ++ rest))) X.length (n0 :: ns) = some (a.length + X.length) := by
  unfold strstr
  rw [List.drop_left, strstrFrom_skip n0 ns rest a ha]
  rfl

theorem memmemFrom_short (needle : List Nat) :
    ∀ hay : List Nat, hay.length < needle.length → memmemFrom needle hay = none := by
  intro hay
  induction hay with
  | nil =>
    intro h
    cases needle with
    | nil => simp at h
    | cons n ns => simp [memmemFrom, List.isPrefixOf]
  | cons x hay ih =>
    intro h
    have hp : needle.isPrefixOf (x :: hay) = false := by
      rw [Bool.eq_false_iff]
      intro hc
      rw [List.isPrefixOf_iff_prefix] at hc
      have := hc.length_le
      omega
    have := ih (by simp at h ⊢; omega)
    simp [memmemFrom, hp, this]

theorem memmemFrom_head (needle hay : List Nat) (h : needle.isPrefixOf hay = true) :
    memmemFrom needle hay = some 0 := by
  cases hay with
  | nil => simp [memmemFrom, h]
  | cons x hay => simp [memmemFrom, h]

theorem bytesBetween_mid (X a rest : List Nat) :
    bytesBetween (X ++ (a ++ rest)) X.length (a.length + X.length) = a := by
  unfold bytesBetween
  rw [List.drop_left, Nat.add_sub_cancel, List.take_left]

theorem toSizeT_toInt32 (n : Nat) (h : n < 2147483648) : toSizeT (toInt32 n) = n := by
  unfold toSizeT toInt32
  omega

theorem decimalAux_digits (fuel : Nat) :
    ∀ (n : Nat) (acc : List Nat), (∀ b ∈ acc, 48 ≤ b ∧ b ≤ 57) →
      ∀ b ∈ decimalAux fuel n acc, 48 ≤ b ∧ b ≤ 57 := by
  induction fuel with
  | zero => intro n acc h b hb; exact h b hb
  | succ fuel ih =>
    intro n acc h b hb
    unfold decimalAux at hb
    split at hb
    · rcases List.mem_cons.mp hb with hb | hb
      · omega
      · exact h b hb
    · refine ih (n / 10) _ ?_ b hb
      intro c hc
      rcases List.mem_cons.mp hc with hc | hc
      · omega
      · exact h c hc

theorem decimal_digits (n : Nat) : ∀ b ∈ decimal n, 48 ≤ b ∧ b ≤ 57 :=
  decimalAux_digits (n + 1) n [] (by simp)

theorem lit_value : lit "VALUE " = [86, 65, 76, 85, 69, 32] := by decide
theorem lit_space : lit " " = [32] := by decide
theorem lit_crlf : lit "\r\n" = [13, 10] := by decide
theorem lit_end : lit "END\r\n" = [69, 78, 68, 13, 10] := by decide
theorem lit_crlf_end : lit "\r\nEND\r\n" = [13, 10, 69, 78, 68, 13, 10] := by decide

theorem valueResponse_length (k f v : List Nat) :
    (valueResponse k f v).length
      = 17 + k.length + f.length + (decimal v.length).length + v.length := by
  simp only [valueResponse, lit_value, lit_space, lit_crlf, lit_crlf_end, List.length_append,
    List.length_cons, List.length_nil]
  omega

namespace DataBufferSlice

theorem MarkProcessedUntil_eq (s : DataBufferSlice) (p : Nat) :
    s.MarkProcessedUntil p = { s with pending_data := p, parse_state := nextState s.parse_state } := by
  cases s with
  | mk sl st pd sc => cases st <;> rfl

end DataBufferSlice

theorem strstr_skip_at (mem X a rest : List Nat) (n0 : Nat) (ns : List Nat) (p : Nat)
    (hm : mem = X ++ (a ++ ((n0 :: ns) ++ rest))) (hp : p = X.length)
    (ha : ∀ b ∈ a, b ≠ 0 ∧ b ≠ n0) :
    strstr mem p (n0 :: ns) = some (a.length + p) := by
  subst hm hp
  exact strstr_skip X a rest n0 ns ha

theorem bytesBetween_at (mem X a rest : List Nat) (p q : Nat)
    (hm : mem = X ++ (a ++ rest)) (hp : p = X.length) (hq : q = a.length + p) :
    bytesBetween mem p q = a := by
  subst hm hp hq
  exact bytesBetween_mid X a rest

theorem drop_at (mem X rest : List Nat) (p : Nat) (hm : mem = X ++ rest) (hp : p = X.length) :
    mem.drop p = rest := by
  subst hm hp
  exact List.drop_left X rest

theorem memmem_head_at (mem X w rest needle : List Nat) (p len : Nat)
    (hm : mem = X ++ (w ++ rest)) (hp : p = X.length) (hl : len = w.length)
    (h : needle.isPrefixOf w = true) :
    memmem mem p len needle = some p := by
  subst hm hp hl
  unfold memmem
  rw [List.drop_left, List.take_left, memmemFrom_head needle w h]
  simp

theorem memmem_short_at (mem X w rest needle : List Nat) (p len : Nat)
    (hm : mem = X ++ (w ++ rest)) (hp : p = X.length) (hl : len = w.length)
    (h : w.length < needle.length) :
    memmem mem p len needle = none := by
  subst hm hp hl
  unfold memmem
  rw [List.drop_left, List.take_left, memmemFrom_short needle w h]
  rfl


/-! ## Where a scan can match -/

theorem strstr_ge (mem : List Nat) (p : Nat) (needle : List Nat) (pos : Nat)
    (h : strstr mem p needle = some pos) : p ≤ pos := by
  unfold strstr at h
  cases hr : strstrFrom needle (mem.drop p) with
  | none => simp [hr] at h
  | some i =>
    simp [hr] at h
    omega

theorem memmemFrom_bound (needle : List Nat) :
    ∀ (hay : List Nat) (i : Nat), memmemFrom needle hay = some i →
      i + needle.length ≤ hay.length ∧ needle.isPrefixOf (hay.drop i) = true := by
  intro hay
  induction hay with
  | nil =>
    intro i h
    unfold memmemFrom at h
    split at h
    · rename_i hp
      have hi : i = 0 := by simpa using h.symm
      subst hi
      rw [List.isPrefixOf_iff_prefix] at hp
      have := hp.length_le
      refine ⟨by simpa using this, ?_⟩
      rw [List.isPrefixOf_iff_prefix]
      simpa using hp
    · simp at h
  | cons x hay ih =>
    intro i h
    unfold memmemFrom at h
    split at h
    · rename_i hp
      have hi : i = 0 := by simpa using h.symm
      subst hi
      refine ⟨?_, by simpa using hp⟩
      rw [List.isPrefixOf_iff_prefix] at hp
      simpa using hp.length_le
    · cases hr : memmemFrom needle hay with
      | none => simp [hr] at h
      | some j =>
        simp [hr] at h
        subst h
        have := ih j hr
        refine ⟨by simp; omega, by simpa using this.2⟩

theorem memmem_bound (mem : List Nat) (p len : Nat) (needle : List Nat) (pos : Nat)
    (h : memmem mem p len needle = some pos) : p ≤ pos ∧ pos + needle.length ≤ p + len := by
  unfold memmem at h
  cases hr : memmemFrom needle ((mem.drop p).take len) with
  | none => simp [hr] at h
  | some i =>
    simp [hr] at h
    have := (memmemFrom_bound needle _ i hr).1
    simp at this
    omega

theorem lit_key : lit "key=" = [107, 101, 121, 61] := by decide
theorem lit_exp : lit "exp=" = [101, 120, 112, 61] := by decide
theorem lit_la : lit "la=" = [108, 97, 61] := by decide
theorem lit_nl : lit "\n" = [10] := by decide

namespace MetaBufferSlice

/-- The common shape of the four scans: `strstr` for the marker, the test
`pos < slice_end_`, and the cursor moved past the marker. -/
theorem run_eq (mem : List Nat) (s : MetaBufferSlice) (op : MetaScan) :
    op.run mem s =
      match strstr mem s.pending_data op.marker with
      | some pos =>
        if pos < s.slice_end then (some pos, { s with pending_data := pos + op.marker.length })
        else (none, s)
      | none => (none, s) := by
  cases op <;> rfl

end MetaBufferSlice

theorem strstrFrom_iff (needle : List Nat) :
    ∀ (hay : List Nat) (k : Nat), strstrFrom needle hay = some k ↔
      (needle.isPrefixOf (hay.drop k) = true ∧
        ∀ i, i < k → hay.getD i 0 ≠ 0 ∧ needle.isPrefixOf (hay.drop i) = false) := by
  intro hay
  induction hay with
  | nil =>
    intro k
    unfold strstrFrom
    by_cases hp : needle.isPrefixOf [] = true
    · rw [if_pos hp]
      constructor
      · intro h
        have hk : k = 0 := by simpa using h.symm
        subst hk
        exact ⟨by simpa using hp, fun i hi => absurd hi (Nat.not_lt_zero i)⟩
      · rintro ⟨_, h2⟩
        cases k with
        | zero => rfl
        | succ k => exact absurd rfl (h2 0 (Nat.succ_pos k)).1
    · rw [if_neg hp]
      constructor
      · intro h; cases h
      · rintro ⟨h1, _⟩
        rw [List.drop_nil] at h1
        exact absurd h1 hp
  | cons x hs ih =>
    intro k
    unfold strstrFrom
    by_cases hp : needle.isPrefixOf (x :: hs) = true
    · rw [if_pos hp]
      constructor
      · intro h
        have hk : k = 0 := by simpa using h.symm
        subst hk
        exact ⟨by simpa using hp, fun i hi => absurd hi (Nat.not_lt_zero i)⟩
      · rintro ⟨_, h2⟩
        cases k with
        | zero => rfl
        | succ k =>
          have := (h2 0 (Nat.succ_pos k)).2
          rw [List.drop_zero, hp] at this
          cases this
    · rw [if_neg hp]
      by_cases hx : x = 0
      · rw [if_pos hx]
        constructor
        · intro h; cases h
        · rintro ⟨h1, h2⟩
          cases k with
          | zero => rw [List.drop_zero] at h1; exact absurd h1 hp
          | succ k =>
            have := (h2 0 (Nat.succ_pos k)).1
            simp [hx] at this
      · rw [if_neg hx]
        cases k with
        | zero =>
          constructor
          · intro h
            cases hr : strstrFrom needle hs with
            | none => simp [hr] at h
            | some j => simp [hr] at h
          · rintro ⟨h1, _⟩
            rw [List.drop_zero] at h1
            exact absurd h1 hp
        | succ k =>
          have hih := ih k
          constructor
          · intro h
            have hk : strstrFrom needle hs = some k := by
              cases hr : strstrFrom needle hs with
              | none => simp [hr] at h
              | some j =>
                simp [hr] at h
                rw [h]
            obtain ⟨h1, h2⟩ := hih.mp hk
            refine ⟨by simpa using h1, ?_⟩
            intro i hi
            cases i with
            | zero => exact ⟨by simpa using hx, by rw [List.drop_zero]; exact Bool.eq_false_iff.mpr hp⟩
            | succ i => simpa using h2 i (by omega)
          · rintro ⟨h1, h2⟩
            have hk : strstrFrom needle hs = some k := by
              refine hih.mpr ⟨by simpa using h1, ?_⟩
              intro i hi
              simpa using h2 (i + 1) (by omega)
            simp [hk]

theorem strstr_iff (mem : List Nat) (p : Nat) (needle : List Nat) (pos : Nat) :
    strstr mem p needle = some pos ↔ FirstOccurrence mem p needle pos := by
  unfold strstr FirstOccurrence
  constructor
  · intro h
    cases hr : strstrFrom needle (mem.drop p) with
    | none => simp [hr] at h
    | some k =>
      simp [hr] at h
      subst h
      obtain ⟨h1, h2⟩ := (strstrFrom_iff needle _ k).mp hr
      refine ⟨by omega, ?_, ?_⟩
      · rw [List.drop_drop] at h1
        rw [Nat.add_comm]
        exact h1
      · intro i hi1 hi2
        have := h2 (i - p) (by omega)
        rw [List.drop_drop, List.getD_eq_getElem?_getD, List.getElem?_drop] at this
        have e : p + (i - p) = i := by omega
        rw [e] at this
        rw [List.getD_eq_getElem?_getD]
        exact this
  · rintro ⟨h0, h1, h2⟩
    have hk : strstrFrom needle (mem.drop p) = some (pos - p) := by
      refine (strstrFrom_iff needle _ _).mpr ⟨?_, ?_⟩
      · rw [List.drop_drop]
        have e : p + (pos - p) = pos := by omega
        rw [e]
        exact h1
      · intro i hi
        have := h2 (p + i) (by omega) (by omega)
        rw [List.drop_drop, List.getD_eq_getElem?_getD, List.getElem?_drop]
        rw [List.getD_eq_getElem?_getD] at this
        exact this
    rw [hk]
    simp
    omega

/-! ## Compaction -/

theorem take_append_at (A B : List Nat) (k : Nat) (h : k = A.length) : (A ++ B).take k = A := by
  subst h
  exact List.take_left A B

theorem drop_append_at (A B : List Nat) (k j : Nat) (h : k = A.length + j) :
    (A ++ B).drop k = B.drop j := by
  subst h
  exact List.drop_append j

namespace MetaBufferSlice

theorem CopyRemainingToStart_snd (mem : List Nat) (s : MetaBufferSlice) (copy_from : Nat) :
    (CopyRemainingToStart mem s copy_from).2
      = { s with start_copy_pos := toUInt32 (toSizeT ((s.data : Int) + s.size - copy_from)) } :=
  rfl

/-- The memory and the object after a compaction, for a window inside the memory,
a position `copy_from` inside the window and a tail shorter than 2^32 bytes. -/
theorem CopyRemainingToStart_eq (mem : List Nat) (s : MetaBufferSlice) (copy_from : Nat)
    (hw : s.data + s.size ≤ mem.length) (hf1 : s.data ≤ copy_from)
    (hf2 : copy_from ≤ s.data + s.size)
    (ht : s.data + s.size - copy_from < 4294967296)
    (hn : s.size < 18446744073709551616)
    (hov : s.data + s.size - copy_from ≤ copy_from - s.data) :
    CopyRemainingToStart mem s copy_from
      = (some (mem.take s.data ++ (mem.drop copy_from).take (s.data + s.size - copy_from)
            ++ List.replicate (s.size - (s.data + s.size - copy_from)) 0
            ++ mem.drop (s.data + s.size)),
          { s with start_copy_pos := s.data + s.size - copy_from }) := by
  have e1 : toSizeT ((s.data : Int) + s.size - copy_from) = s.data + s.size - copy_from := by
    unfold toSizeT; omega
  have e2 : toUInt32 ((s.data + s.size - copy_from : Nat) : Int) = s.data + s.size - copy_from := by
    unfold toUInt32; omega
  have e3 : toSizeT ((s.size : Int) - ((s.data + s.size - copy_from : Nat) : Int))
      = s.size - (s.data + s.size - copy_from) := by
    unfold toSizeT; omega
  generalize ht' : s.data + s.size - copy_from = t at *
  have hbl : ((mem.drop copy_from).take t).length = t := by
    rw [List.length_take, List.length_drop]; omega
  have hm1 : memcpy mem s.data copy_from t
      = some ((mem.take s.data ++ (mem.drop copy_from).take t) ++ mem.drop (s.data + t)) := by
    have hx : ((mem.drop copy_from).take t).take (mem.length - s.data)
        = (mem.drop copy_from).take t := List.take_of_length_le (by rw [hbl]; omega)
    unfold memcpy writeBytes
    rw [if_neg (by omega), hbl, hx]
  have hl1 : (mem.take s.data ++ (mem.drop copy_from).take t).length = s.data + t := by
    rw [List.length_append, hbl, List.length_take]; omega
  simp only [CopyRemainingToStart, e1, e2, free_bytes, e3, hm1, Option.map_some']
  congr 2
  unfold bzero
  rw [take_append_at _ _ _ hl1.symm,
    drop_append_at _ _ (s.data + t + (s.size - t)) (s.size - t) (by rw [hl1]),
    List.drop_drop]
  have e4 : s.data + t + (s.size - t) = s.data + s.size := by omega
  have e5 : min (s.size - t)
      ((mem.take s.data ++ (mem.drop copy_from).take t ++ mem.drop (s.data + t)).length
        - (s.data + t)) = s.size - t := by
    rw [List.length_append, hl1, List.length_drop]; omega
  rw [e4, e5]

end MetaBufferSlice

theorem writeBytes_mid (X Z Y bs : List Nat) (k : Nat) (hk : k = X.length)
    (hb : bs.length ≤ Z.length) :
    writeBytes (X ++ Z ++ Y) k bs = X ++ bs ++ Z.drop bs.length ++ Y := by
  subst hk
  unfold writeBytes
  have h1 : (X ++ Z ++ Y).take X.length = X := by
    rw [List.append_assoc]; exact List.take_left X _
  have h2 : bs.take ((X ++ Z ++ Y).length - X.length) = bs :=
    List.take_of_length_le (by simp only [List.length_append]; omega)
  have h3 : (X ++ Z ++ Y).drop (X.length + bs.length) = Z.drop bs.length ++ Y := by
    rw [List.append_assoc, List.drop_append, List.drop_append_of_le_length hb]
  rw [h1, h2, h3]
  simp only [List.append_assoc]

/-- The memory after a compaction at the start of the tail `p` of the window and a
write of `sfx` at buf_begin_fill(): it is defined, and from the window start on it
is `p ++ sfx`, then a NUL. -/
theorem compact_refill_drop (mem : List Nat) (s : MetaBufferSlice) (p sfx : List Nat)
    (hw : s.data + s.size ≤ mem.length)
    (hp : bytesBetween mem (s.data + s.size - p.length) (s.data + s.size) = p)
    (hroom : p.length + sfx.length < s.size)
    (ht : p.length < 4294967296) (hn : s.size < 18446744073709551616)
    (hov : p.length ≤ s.size - p.length) :
    ∃ mem2, (refillAfterCompaction mem s (s.data + s.size - p.length) sfx).1 = some mem2 ∧
      mem2.drop s.data
        = (p ++ sfx) ++ 0 :: (List.replicate (s.size - p.length - sfx.length - 1) 0
            ++ mem.drop (s.data + s.size)) := by
  have et : s.data + s.size - (s.data + s.size - p.length) = p.length := by omega
  have hp' : (mem.drop (s.data + s.size - p.length)).take p.length = p := by
    unfold bytesBetween at hp
    rw [et] at hp
    exact hp
  unfold refillAfterCompaction
  rw [MetaBufferSlice.CopyRemainingToStart_eq mem s (s.data + s.size - p.length) hw (by omega)
    (by omega) (by omega) hn (by omega)]
  simp only [et, hp', Option.map_some']
  refine ⟨_, rfl, ?_⟩
  have hd : (mem.take s.data).length = s.data := by
    rw [List.length_take]; omega
  have hfill : MetaBufferSlice.buf_begin_fill { s with start_copy_pos := p.length }
      = s.data + p.length := rfl
  rw [hfill, writeBytes_mid (mem.take s.data ++ p) (List.replicate (s.size - p.length) 0)
    (mem.drop (s.data + s.size)) sfx _ (by rw [List.length_append, hd])
    (by rw [List.length_replicate]; omega)]
  rw [List.drop_replicate]
  have e : s.size - p.length - sfx.length = (s.size - p.length - sfx.length - 1) + 1 := by omega
  rw [e, List.replicate_succ]
  exact drop_at _ (mem.take s.data) _ _ (by simp [List.append_assoc]) hd.symm

/-! ## Scans of a C string do not look behind its NUL -/

theorem isPrefixOf_before_nul (needle : List Nat) (h0 : ∀ b ∈ needle, b ≠ 0) :
    ∀ (A r1 r2 : List Nat),
      needle.isPrefixOf (A ++ 0 :: r1) = needle.isPrefixOf (A ++ 0 :: r2) := by
  induction needle with
  | nil => intro A r1 r2; simp [List.isPrefixOf]
  | cons n ns ih =>
    intro A r1 r2
    have hn : n ≠ 0 := h0 n (List.mem_cons_self _ _)
    have hb : (n == 0) = false := by simpa using hn
    cases A with
    | nil => simp [List.isPrefixOf, hb]
    | cons x A =>
      have e := ih (fun b hb => h0 b (List.mem_cons_of_mem _ hb)) A r1 r2
      show (n == x && ns.isPrefixOf (A ++ 0 :: r1)) = (n == x && ns.isPrefixOf (A ++ 0 :: r2))
      rw [e]

theorem isPrefixOf_nul_bound (needle : List Nat) (h0 : ∀ b ∈ needle, b ≠ 0) :
    ∀ (A r : List Nat), needle.isPrefixOf (A ++ 0 :: r) = true → needle.length ≤ A.length := by
  induction needle with
  | nil => intro A r _; simp
  | cons n ns ih =>
    intro A r h
    have hn : n ≠ 0 := h0 n (List.mem_cons_self _ _)
    have hb : (n == 0) = false := by simpa using hn
    cases A with
    | nil => simp [List.isPrefixOf, hb] at h
    | cons x A =>
      have h' : (n == x && ns.isPrefixOf (A ++ 0 :: r)) = true := h
      rw [Bool.and_eq_true] at h'
      have := ih (fun b hb => h0 b (List.mem_cons_of_mem _ hb)) A r h'.2
      simp
      omega

theorem strstrFrom_before_nul (needle : List Nat) (h0 : ∀ b ∈ needle, b ≠ 0) :
    ∀ (A r1 r2 : List Nat),
      strstrFrom needle (A ++ 0 :: r1) = strstrFrom needle (A ++ 0 :: r2) := by
  intro A
  induction A with
  | nil =>
    intro r1 r2
    have := isPrefixOf_before_nul needle h0 [] r1 r2
    simp only [List.nil_append] at this ⊢
    simp [strstrFrom, this]
  | cons x A ih =>
    intro r1 r2
    have := isPrefixOf_before_nul needle h0 (x :: A) r1 r2
    simp only [List.cons_append] at this ⊢
    simp only [strstrFrom, this, ih r1 r2]

theorem strstrFrom_nul_bound (needle : List Nat) (h0 : ∀ b ∈ needle, b ≠ 0) :
    ∀ (A r : List Nat) (k : Nat), strstrFrom needle (A ++ 0 :: r) = some k →
      k + needle.length ≤ A.length := by
  intro A
  induction A with
  | nil =>
    intro r k h
    simp only [List.nil_append, strstrFrom] at h
    split at h
    · rename_i hp
      have := isPrefixOf_nul_bound needle h0 [] r (by simpa using hp)
      have hk : k = 0 := by simpa using h.symm
      subst hk
      simpa using this
    · simp at h
  | cons x A ih =>
    intro r k h
    simp only [List.cons_append, strstrFrom] at h
    split at h
    · rename_i hp
      have := isPrefixOf_nul_bound needle h0 (x :: A) r (by simpa using hp)
      have hk : k = 0 := by simpa using h.symm
      subst hk
      simpa using this
    · split at h
      · cases h
      · cases hr : strstrFrom needle (A ++ 0 :: r) with
        | none => simp [hr] at h
        | some j =>
          simp [hr] at h
          have := ih r j hr
          simp
          omega

theorem marker_no_nul (op : MetaScan) : ∀ b ∈ op.marker, b ≠ 0 := by
  cases op <;> decide

theorem marker_length_pos (op : MetaScan) : 0 < op.marker.length := by
  cases op <;> decide

/-- Two memories hold the same text `L`, NUL-terminated, at address `d`; two
objects have the same cursor inside `L` and both windows reach up to the end of
`L`. Then a scan returns the same pointer on both, and leaves both cursors at
the same place inside `L`. -/
theorem scan_agree (L : List Nat) (d : Nat) (mem1 mem2 r1 r2 : List Nat)
    (h1 : mem1.drop d = L ++ 0 :: r1) (h2 : mem2.drop d = L ++ 0 :: r2)
    (s1 s2 : MetaBufferSlice) (hc : s1.pending_data = s2.pending_data)
    (hj1 : d ≤ s1.pending_data) (hj2 : s1.pending_data ≤ d + L.length)
    (he1 : d + L.length ≤ s1.slice_end) (he2 : d + L.length ≤ s2.slice_end)
    (op : MetaScan) :
    (op.run mem1 s1).1 = (op.run mem2 s2).1 ∧
    (op.run mem1 s1).2.pending_data = (op.run mem2 s2).2.pending_data ∧
    d ≤ (op.run mem1 s1).2.pending_data ∧
    (op.run mem1 s1).2.pending_data ≤ d + L.length ∧
    (op.run mem1 s1).2.slice_end = s1.slice_end ∧
    (op.run mem2 s2).2.slice_end = s2.slice_end := by
  obtain ⟨j, hj⟩ : ∃ j, s1.pending_data = d + j := ⟨s1.pending_data - d, by omega⟩
  have hjl : j ≤ L.length := by omega
  have hd1 : mem1.drop s1.pending_data = L.drop j ++ 0 :: r1 := by
    rw [hj, ← List.drop_drop, h1, List.drop_append_of_le_length hjl]
  have hd2 : mem2.drop s2.pending_data = L.drop j ++ 0 :: r2 := by
    rw [← hc, hj, ← List.drop_drop, h2, List.drop_append_of_le_length hjl]
  have hs1 : strstr mem1 s1.pending_data op.marker
      = (strstrFrom op.marker (L.drop j ++ 0 :: r1)).map (· + s1.pending_data) := by
    unfold strstr; rw [hd1]
  have hs2 : strstr mem2 s2.pending_data op.marker
      = (strstrFrom op.marker (L.drop j ++ 0 :: r1)).map (· + s1.pending_data) := by
    unfold strstr
    rw [hd2, strstrFrom_before_nul op.marker (marker_no_nul op) (L.drop j) r2 r1, hc]
  rw [MetaBufferSlice.run_eq, MetaBufferSlice.run_eq, hs1, hs2]
  cases hr : strstrFrom op.marker (L.drop j ++ 0 :: r1) with
  | none => exact ⟨rfl, hc, hj1, hj2, rfl, rfl⟩
  | some k =>
    have hb := strstrFrom_nul_bound op.marker (marker_no_nul op) (L.drop j) r1 k hr
    have hm := marker_length_pos op
    rw [List.length_drop] at hb
    simp only [Option.map_some']
    rw [if_pos (by omega), if_pos (by omega)]
    refine ⟨rfl, rfl, ?_, ?_, rfl, rfl⟩
    · show d ≤ k + s1.pending_data + op.marker.length
      omega
    · show k + s1.pending_data + op.marker.length ≤ d + L.length
      omega

theorem runMetaScans_agree (L : List Nat) (d : Nat) (mem1 mem2 r1 r2 : List Nat)
    (h1 : mem1.drop d = L ++ 0 :: r1) (h2 : mem2.drop d = L ++ 0 :: r2)
    (ops : List MetaScan) :
    ∀ (s1 s2 : MetaBufferSlice), s1.pending_data = s2.pending_data →
      d ≤ s1.pending_data → s1.pending_data ≤ d + L.length →
      d + L.length ≤ s1.slice_end → d + L.length ≤ s2.slice_end →
      (runMetaScans mem1 s1 ops).1 = (runMetaScans mem2 s2 ops).1 := by
  induction ops with
  | nil => intro s1 s2 _ _ _ _ _; rfl
  | cons op ops ih =>
    intro s1 s2 hc hj1 hj2 he1 he2
    obtain ⟨a1, a2, a3, a4, a5, a6⟩ := scan_agree L d mem1 mem2 r1 r2 h1 h2 s1 s2 hc hj1 hj2 he1 he2 op
    simp only [runMetaScans]
    rw [a1, ih (op.run mem1 s1).2 (op.run mem2 s2).2 a2 a3 a4 (by rw [a5]; exact he1)
      (by rw [a6]; exact he2)]

/-! ## The bytes of a record header -/

namespace MemcachedUtils

theorem ConvertIntToBytes_two (x : Int) :
    ConvertIntToBytes x 2 = [toUChar (x >>> (8 : Nat)), toUChar (x >>> (0 : Nat))] := rfl

theorem ConvertIntToBytes_four (x : Int) :
    ConvertIntToBytes x 4
      = [toUChar (x >>> (24 : Nat)), toUChar (x >>> (16 : Nat)), toUChar (x >>> (8 : Nat)),
          toUChar (x >>> (0 : Nat))] := rfl

theorem ConvertUInt16ToBytes_four (f : Nat) :
    ConvertUInt16ToBytes f 4
      = [toUChar ((f : Int) >>> (24 : Nat)), toUChar ((f : Int) >>> (16 : Nat)),
          toUChar ((f : Int) >>> (8 : Nat)), toUChar ((f : Int) >>> (0 : Nat))] := rfl

theorem c_str_of_no_nul (k : List Nat) (h : ∀ b ∈ k, b ≠ 0) : c_str k = k := by
  unfold c_str
  rw [List.takeWhile_eq_self_iff]
  intro b hb
  simpa using h b hb

end MemcachedUtils

theorem bigEndian_two (a b : Nat) : bigEndian [a, b] = a * 256 + b := by
  simp [bigEndian]

theorem bigEndian_four (a b c d : Nat) :
    bigEndian [a, b, c, d] = ((a * 256 + b) * 256 + c) * 256 + d := by
  simp [bigEndian]

theorem bytes_two_value (x : Int) (h0 : 0 ≤ x) (h1 : x < 65536) :
    ((toUChar (x >>> (8 : Nat)) * 256 + toUChar (x >>> (0 : Nat)) : Nat) : Int) = x := by
  simp only [Int.shiftRight_eq_div_pow, toUChar, Nat.reducePow, Nat.cast_ofNat, Nat.cast_one]
  omega

theorem bytes_four_value (x : Int) :
    ((((toUChar (x >>> (24 : Nat)) * 256 + toUChar (x >>> (16 : Nat))) * 256
          + toUChar (x >>> (8 : Nat))) * 256
        + toUChar (x >>> (0 : Nat)) : Nat) : Int) = x % 4294967296 := by
  simp only [Int.shiftRight_eq_div_pow, toUChar, Nat.reducePow, Nat.cast_ofNat, Nat.cast_one]
  omega

theorem decodeHeader_layout (A key E F V : List Nat) (hA : A.length = 2)
    (hk : bigEndian A = key.length) (hE : E.length = 4) (hF : F.length = 4)
    (hV : V.length = 4) :
    decodeHeader (A ++ key ++ E ++ F ++ V)
      = some { key := key, expiry := toInt32 (bigEndian E), flags := bigEndian F,
               value_len := bigEndian V } := by
  have h1 : (A ++ key ++ E ++ F ++ V).take 2 = A := by
    simp only [List.append_assoc]
    exact take_append_at _ _ _ hA.symm
  have h2 : (A ++ key ++ E ++ F ++ V).drop 2 = key ++ (E ++ (F ++ V)) :=
    drop_at _ A _ _ (by simp only [List.append_assoc]) hA.symm
  have h3 : (A ++ key ++ E ++ F ++ V).drop (2 + key.length) = E ++ (F ++ V) :=
    drop_at _ (A ++ key) _ _ (by simp only [List.append_assoc])
      (by rw [List.length_append, hA])
  have h4 : (A ++ key ++ E ++ F ++ V).drop (2 + key.length + 4) = F ++ V :=
    drop_at _ (A ++ key ++ E) _ _ (by simp only [List.append_assoc])
      (by rw [List.length_append, List.length_append, hA, hE])
  have h5 : (A ++ key ++ E ++ F ++ V).drop (2 + key.length + 8) = V :=
    drop_at _ (A ++ key ++ E ++ F) _ _ rfl
      (by rw [List.length_append, List.length_append, List.length_append, hA, hE, hF])
  have hl : (A ++ key ++ E ++ F ++ V).length = 2 + key.length + 12 := by
    simp only [List.length_append, hA, hE, hF, hV]
  unfold decodeHeader
  simp only [h1, hk, hl, if_true, h2, h3, h4, h5]
  rw [List.take_left, take_append_at E _ 4 hE.symm, take_append_at F _ 4 hF.symm,
    List.take_of_length_le (by rw [hV])]

theorem header_expiry_value (x : Int) (he : -2147483648 ≤ x ∧ x < 2147483648) :
    toInt32 (bigEndian (MemcachedUtils.ConvertIntToBytes x 4)) = x := by
  rw [MemcachedUtils.ConvertIntToBytes_four, bigEndian_four, bytes_four_value x]
  unfold toInt32; omega

theorem header_flags_value (f : Nat) (hf : f < 65536) :
    bigEndian (MemcachedUtils.ConvertUInt16ToBytes f 4) = f := by
  rw [MemcachedUtils.ConvertUInt16ToBytes_four, bigEndian_four]
  have e2 := bytes_four_value (f : Int)
  have h2 : ((f : Nat) : Int) % 4294967296 = f := by omega
  rw [h2] at e2
  exact Int.ofNat_inj.mp e2

theorem header_length_value (n : Nat) (hv : n < 4294967296) :
    bigEndian (MemcachedUtils.ConvertIntToBytes (toInt32 n) 4) = n := by
  rw [MemcachedUtils.ConvertIntToBytes_four, bigEndian_four]
  have e3 := bytes_four_value (toInt32 n)
  have h3 : toInt32 n % 4294967296 = n := by unfold toInt32; omega
  rw [h3] at e3
  exact Int.ofNat_inj.mp e3

theorem header_keylen_value (n : Nat) (hn : n < 65536) :
    bigEndian (MemcachedUtils.ConvertIntToBytes (toInt32 n) 2) = n := by
  have h32 : toInt32 n = n := by unfold toInt32; omega
  rw [MemcachedUtils.ConvertIntToBytes_two, bigEndian_two, h32]
  have := bytes_two_value (n : Int) (by omega) (by omega)
  exact Int.ofNat_inj.mp this

theorem ConvertIntToBytes_length_two (x : Int) :
    (MemcachedUtils.ConvertIntToBytes x 2).length = 2 := by
  rw [MemcachedUtils.ConvertIntToBytes_two]; rfl

theorem ConvertIntToBytes_length_four (x : Int) :
    (MemcachedUtils.ConvertIntToBytes x 4).length = 4 := by
  rw [MemcachedUtils.ConvertIntToBytes_four]; rfl

theorem ConvertUInt16ToBytes_length_four (f : Nat) :
    (MemcachedUtils.ConvertUInt16ToBytes f 4).length = 4 := by
  rw [MemcachedUtils.ConvertUInt16ToBytes_four]; rfl

/-! ## Width trimming -/

theorem toUChar_shift (x : Int) (k : Nat) :
    toUChar (x >>> k) = ((x / (2 : Int) ^ k) % 256).toNat := by
  unfold toUChar
  rw [Int.shiftRight_eq_div_pow]
  norm_cast

theorem ConvertIntToBytes_zero (x : Int) : MemcachedUtils.ConvertIntToBytes x 0 = [] := rfl

theorem ConvertIntToBytes_one (x : Int) :
    MemcachedUtils.ConvertIntToBytes x 1 = [toUChar (x >>> (0 : Nat))] := rfl

theorem ConvertIntToBytes_three (x : Int) :
    MemcachedUtils.ConvertIntToBytes x 3
      = [toUChar (x >>> (16 : Nat)), toUChar (x >>> (8 : Nat)), toUChar (x >>> (0 : Nat))] := rfl

theorem ConvertIntToBytes_four_BE32 (x : Int) :
    MemcachedUtils.ConvertIntToBytes x 4 = BE32 (twosComplement32 x) := by
  rw [MemcachedUtils.ConvertIntToBytes_four]
  simp only [toUChar_shift, BE32, twosComplement32]
  have h1 : ((x / (2 : Int) ^ 24) % 256).toNat = (x % 4294967296).toNat / 16777216 % 256 := by
    norm_num; omega
  have h2 : ((x / (2 : Int) ^ 16) % 256).toNat = (x % 4294967296).toNat / 65536 % 256 := by
    norm_num; omega
  have h3 : ((x / (2 : Int) ^ 8) % 256).toNat = (x % 4294967296).toNat / 256 % 256 := by
    norm_num; omega
  have h4 : ((x / (2 : Int) ^ 0) % 256).toNat = (x % 4294967296).toNat % 256 := by
    norm_num; omega
  rw [h1, h2, h3, h4]

theorem ConvertIntToBytes_two_BE16 (n : Nat) (h : n < 65536) :
    MemcachedUtils.ConvertIntToBytes (toInt32 n) 2 = BE16 n := by
  have h32 : toInt32 n = n := by unfold toInt32; omega
  rw [MemcachedUtils.ConvertIntToBytes_two, h32]
  simp only [toUChar_shift, BE16]
  have h3 : (((n : Int) / (2 : Int) ^ 8) % 256).toNat = n / 256 % 256 := by
    norm_num; omega
  have h4 : (((n : Int) / (2 : Int) ^ 0) % 256).toNat = n % 256 := by
    norm_num; omega
  rw [h3, h4]

theorem twosComplement32_nat (n : Nat) (h : n < 4294967296) :
    twosComplement32 (toInt32 n) = n := by
  unfold twosComplement32 toInt32; omega

theorem twosComplement32_cast (n : Nat) (h : n < 4294967296) :
    twosComplement32 (n : Int) = n := by
  unfold twosComplement32; omega

/-! ## The buffer pool -/

namespace MemoryManager

theorem PreallocateLoop_ok (malloc : Nat → Option Nat) :
    ∀ (k i : Nat) (m : MemoryManager), (∀ j, j < k → (malloc (i + j)).isSome = true) →
      PreallocateLoop malloc i k m
        = (Status.OK,
            { m with free_buffers := m.free_buffers ++ (List.range' i k).filterMap malloc }) := by
  intro k
  induction k with
  | zero => intro i m _; simp [PreallocateLoop]
  | succ k ih =>
    intro i m h
    have h0 := h 0 (Nat.succ_pos k)
    rw [Nat.add_zero] at h0
    obtain ⟨b, hb⟩ := Option.isSome_iff_exists.mp h0
    have hrest : ∀ j, j < k → (malloc (i + 1 + j)).isSome = true := by
      intro j hj
      have := h (j + 1) (by omega)
      rwa [show i + (j + 1) = i + 1 + j by omega] at this
    simp only [PreallocateLoop, hb]
    rw [ih (i + 1) _ hrest, List.range'_succ, List.filterMap_cons_some hb]
    simp [List.append_assoc]

theorem PreallocateLoop_fail (malloc : Nat → Option Nat) :
    ∀ (f k i : Nat) (m : MemoryManager), f < k →
      (∀ j, j < f → (malloc (i + j)).isSome = true) → malloc (i + f) = none →
      PreallocateLoop malloc i k m
        = (Status.OutOfMemoryError,
            { m with free_buffers := m.free_buffers ++ (List.range' i f).filterMap malloc }) := by
  intro f
  induction f with
  | zero =>
    intro k i m hk _ hn
    obtain ⟨k', rfl⟩ : ∃ k', k = k' + 1 := ⟨k - 1, by omega⟩
    rw [Nat.add_zero] at hn
    simp [PreallocateLoop, hn]
  | succ f ih =>
    intro k i m hk h hn
    obtain ⟨k', rfl⟩ : ∃ k', k = k' + 1 := ⟨k - 1, by omega⟩
    have h0 := h 0 (Nat.succ_pos f)
    rw [Nat.add_zero] at h0
    obtain ⟨b, hb⟩ := Option.isSome_iff_exists.mp h0
    have hrest : ∀ j, j < f → (malloc (i + 1 + j)).isSome = true := by
      intro j hj
      have := h (j + 1) (by omega)
      rwa [show i + (j + 1) = i + 1 + j by omega] at this
    have hn' : malloc (i + 1 + f) = none := by
      rwa [show i + (f + 1) = i + 1 + f by omega] at hn
    simp only [PreallocateLoop, hb]
    rw [ih k' (i + 1) _ (by omega) hrest hn', List.range'_succ, List.filterMap_cons_some hb]
    simp [List.append_assoc]

theorem filterMap_range'_length (malloc : Nat → Option Nat) :
    ∀ (k i : Nat), (∀ j, j < k → (malloc (i + j)).isSome = true) →
      ((List.range' i k).filterMap malloc).length = k := by
  intro k
  induction k with
  | zero => intro i _; simp
  | succ k ih =>
    intro i h
    have h0 := h 0 (Nat.succ_pos k)
    rw [Nat.add_zero] at h0
    obtain ⟨b, hb⟩ := Option.isSome_iff_exists.mp h0
    have hrest : ∀ j, j < k → (malloc (i + 1 + j)).isSome = true := by
      intro j hj
      have := h (j + 1) (by omega)
      rwa [show i + (j + 1) = i + 1 + j by omega] at this
    rw [List.range'_succ, List.filterMap_cons_some hb, List.length_cons, ih (i + 1) hrest]

/-- A successful preallocation means that no `malloc` call failed. -/
theorem PreallocateLoop_ok_all (malloc : Nat → Option Nat) (k : Nat) (m m' : MemoryManager)
    (h : PreallocateLoop malloc 0 k m = (Status.OK, m')) :
    ∀ j, j < k → (malloc (0 + j)).isSome = true := by
  by_contra hc
  have hex : ∃ f, f < k ∧ malloc f = none := by
    by_contra hne
    apply hc
    intro j hj
    rw [Nat.zero_add]
    cases hm : malloc j with
    | none => exact absurd ⟨j, hj, hm⟩ hne
    | some b => rfl
  classical
  have hf := Nat.find_spec hex
  have hmin := fun j (hj : j < Nat.find hex) => Nat.find_min hex hj
  have := PreallocateLoop_fail malloc (Nat.find hex) k 0 m hf.1
    (by
      intro j hj
      rw [Nat.zero_add]
      cases hm : malloc j with
      | none => exact absurd ⟨Nat.lt_trans hj hf.1, hm⟩ (hmin j hj)
      | some b => rfl)
    (by rw [Nat.zero_add]; exact hf.2)
  rw [this] at h
  cases h

end MemoryManager

theorem PoolInv_step (bufs : List Nat) (s : PoolState) (c : PoolCall)
    (hi : PoolInv bufs s) (hv : PoolState.Valid s [c]) : PoolInv bufs (s.step c).2 := by
  unfold PoolInv at *
  cases c with
  | get =>
    cases hf : s.mgr.free_buffers with
    | nil =>
      have : (s.step .get).2 = { mgr := s.mgr, outstanding := s.outstanding } := by
        simp [PoolState.step, MemoryManager.GetBuffer, hf]
      rw [this]
      exact hi
    | cons b rest =>
      have : (s.step .get).2
          = { mgr := { s.mgr with free_buffers := rest }, outstanding := b :: s.outstanding } := by
        simp [PoolState.step, MemoryManager.GetBuffer, hf]
      rw [this]
      rw [hf] at hi
      exact (List.perm_middle).trans hi
  | ret b =>
    have hb : b ∈ s.outstanding := hv.1
    show (s.mgr.free_buffers ++ [b] ++ s.outstanding.erase b).Perm bufs
    have h1 : (s.mgr.free_buffers ++ [b] ++ s.outstanding.erase b).Perm
        (s.mgr.free_buffers ++ s.outstanding) := by
      rw [List.append_assoc]
      exact List.Perm.append_left _ (List.perm_cons_erase hb).symm
    exact h1.trans hi

theorem PoolInv_run (bufs : List Nat) (cs : List PoolCall) :
    ∀ s : PoolState, PoolInv bufs s → PoolState.Valid s cs → PoolInv bufs (s.run cs) := by
  induction cs with
  | nil => intro s hi _; exact hi
  | cons c cs ih =>
    intro s hi hv
    have hv1 : PoolState.Valid s [c] := by
      cases c with
      | get => simp [PoolState.Valid]
      | ret b => exact ⟨hv.1, trivial⟩
    have hv2 : PoolState.Valid (s.step c).2 cs := by
      cases c with
      | get => exact hv
      | ret b => exact hv.2
    show PoolInv bufs (PoolState.run (s.step c).2 cs)
    exact ih _ (PoolInv_step bufs s c hi hv1) hv2

namespace MemoryManager

theorem GetBuffers_all (l : List Nat) :
    ∀ m : MemoryManager, m.free_buffers = l →
      GetBuffers l.length m = (l.map some, { m with free_buffers := [] }) := by
  induction l with
  | nil =>
    intro m h
    cases m
    simp only at h
    subst h
    rfl
  | cons b l ih =>
    intro m h
    have hg : m.GetBuffer = (some b, { m with free_buffers := l }) := by
      simp [GetBuffer, h]
    simp only [List.length_cons, GetBuffers, hg, List.map_cons]
    rw [ih { m with free_buffers := l } rfl]

end MemoryManager

/-! ## The retry counter -/

namespace McData

theorem set_get_complete_attempts (r : McData) (b : Bool)
    (h1 : -2147483648 ≤ r.get_attempts) (h2 : r.get_attempts < 2147483647) :
    r.set_get_complete b
      = { r with get_attempts := r.get_attempts + 1, get_complete := b } := by
  have e : toInt32 (r.get_attempts + 1) = r.get_attempts + 1 := by unfold toInt32; omega
  unfold set_get_complete
  rw [e]

theorem set_get_complete_all_attempts (bs : List Bool) :
    ∀ r : McData, 0 ≤ r.get_attempts → r.get_attempts + bs.length < 2147483648 →
      (r.set_get_complete_all bs).get_attempts = r.get_attempts + bs.length := by
  induction bs with
  | nil => intro r _ _; simp [set_get_complete_all]
  | cons b bs ih =>
    intro r h0 h1
    simp only [List.length_cons, Nat.cast_add, Nat.cast_one] at h1
    have hs := set_get_complete_attempts r b (by omega) (by omega)
    have := ih (r.set_get_complete b) (by rw [hs]; show 0 ≤ r.get_attempts + 1; omega)
      (by rw [hs]; show r.get_attempts + 1 + (bs.length : Int) < 2147483648; omega)
    show ((r.set_get_complete b).set_get_complete_all bs).get_attempts = _
    rw [this, hs]
    simp only [List.length_cons, Nat.cast_add, Nat.cast_one]
    omega

end McData

/-! ## What a bounded scan finds -/

theorem memmemFrom_iff (needle : List Nat) :
    ∀ (hay : List Nat) (k : Nat), memmemFrom needle hay = some k ↔
      (needle.isPrefixOf (hay.drop k) = true ∧
        ∀ i, i < k → needle.isPrefixOf (hay.drop i) = false) := by
  intro hay
  induction hay with
  | nil =>
    intro k
    unfold memmemFrom
    by_cases hp : needle.isPrefixOf [] = true
    · rw [if_pos hp]
      constructor
      · intro h
        have hk : k = 0 := by simpa using h.symm
        subst hk
        exact ⟨by simpa using hp, fun i hi => absurd hi (Nat.not_lt_zero i)⟩
      · rintro ⟨_, h2⟩
        cases k with
        | zero => rfl
        | succ k =>
          have := h2 0 (Nat.succ_pos k)
          rw [List.drop_zero, hp] at this
          cases this
    · rw [if_neg hp]
      constructor
      · intro h; cases h
      · rintro ⟨h1, _⟩
        rw [List.drop_nil] at h1
        exact absurd h1 hp
  | cons x hs ih =>
    intro k
    unfold memmemFrom
    by_cases hp : needle.isPrefixOf (x :: hs) = true
    · rw [if_pos hp]
      constructor
      · intro h
        have hk : k = 0 := by simpa using h.symm
        subst hk
        exact ⟨by simpa using hp, fun i hi => absurd hi (Nat.not_lt_zero i)⟩
      · rintro ⟨_, h2⟩
        cases k with
        | zero => rfl
        | succ k =>
          have := h2 0 (Nat.succ_pos k)
          rw [List.drop_zero, hp] at this
          cases this
    · rw [if_neg hp]
      cases k with
      | zero =>
        constructor
        · intro h
          cases hr : memmemFrom needle hs with
          | none => simp [hr] at h
          | some j => simp [hr] at h
        · rintro ⟨h1, _⟩
          rw [List.drop_zero] at h1
          exact absurd h1 hp
      | succ k =>
        have hih := ih k
        constructor
        · intro h
          have hk : memmemFrom needle hs = some k := by
            cases hr : memmemFrom needle hs with
            | none => simp [hr] at h
            | some j =>
              simp [hr] at h
              rw [h]
          obtain ⟨h1, h2⟩ := hih.mp hk
          refine ⟨by simpa using h1, ?_⟩
          intro i hi
          cases i with
          | zero => rw [List.drop_zero]; exact Bool.eq_false_iff.mpr hp
          | succ i => simpa using h2 i (by omega)
        · rintro ⟨h1, h2⟩
          have hk : memmemFrom needle hs = some k := by
            refine hih.mpr ⟨by simpa using h1, ?_⟩
            intro i hi
            simpa using h2 (i + 1) (by omega)
          simp [hk]

namespace DataBufferSlice

theorem bytes_pending_eq (s : DataBufferSlice) (h1 : s.pending_data ≤ s.data + s.size)
    (h2 : s.data + s.size - s.pending_data < 2147483648) :
    s.bytes_pending = ((s.data + s.size - s.pending_data : Nat) : Int) ∧
    toSizeT s.bytes_pending = s.data + s.size - s.pending_data := by
  unfold bytes_pending toSizeT toInt32
  constructor <;> omega

/-- `next_value_delim` in terms of the bytes between the cursor and the window
end. -/
theorem next_value_delim_eq (mem : List Nat) (s : DataBufferSlice)
    (h1 : s.pending_data ≤ s.data + s.size)
    (h2 : s.data + s.size - s.pending_data < 2147483648) :
    s.next_value_delim mem =
      match memmemFrom (lit "VALUE ") (bytesBetween mem s.pending_data (s.data + s.size)) with
      | some k =>
        (some (k + s.pending_data),
          { s with pending_data := k + s.pending_data + 6,
                   parse_state := nextState s.parse_state })
      | none => (none, s) := by
  unfold next_value_delim memmem bytesBetween
  simp only [(bytes_pending_eq s h1 h2).2]
  cases memmemFrom (lit "VALUE ") (List.take (s.data + s.size - s.pending_data)
      (List.drop s.pending_data mem)) with
  | none => rfl
  | some k => simp [MarkProcessedUntil_eq]

end DataBufferSlice

/-! ## Comparison with a literal -/

theorem strncmpIsZero_literal (L : List Nat) (h0 : ∀ b ∈ L, b ≠ 0) :
    ∀ s1 : List Nat, strncmpIsZero s1 L L.length = true ↔ s1.take L.length = L := by
  induction L with
  | nil => intro s1; simp [strncmpIsZero]
  | cons c L ih =>
    intro s1
    have hc : c ≠ 0 := h0 c (List.mem_cons_self _ _)
    have ih' := ih (fun b hb => h0 b (List.mem_cons_of_mem _ hb))
    cases s1 with
    | nil =>
      simp only [List.length_cons, strncmpIsZero, List.headD_nil, List.headD_cons]
      rw [if_pos (fun h => hc h.symm)]
      simp
    | cons x xs =>
      simp only [List.length_cons, strncmpIsZero, List.headD_cons, List.tail_cons,
        List.take_succ_cons]
      by_cases hx : x = c
      · subst hx
        rw [if_neg (by simp), if_neg hc, ih' xs]
        simp
      · rw [if_pos hx]
        simp [hx]

theorem lit_error : lit "ERROR\r\n" = [69, 82, 82, 79, 82, 13, 10] := by decide

theorem memAt_window_tail (mem : List Nat) (e k : Nat) (h : k ≤ e) :
    (memAt mem ((e : Int) - k)).take k = bytesBetween mem (e - k) e := by
  have e1 : ((e : Int) - k) = ((e - k : Nat) : Int) := by omega
  have e2 : e - (e - k) = k := by omega
  unfold memAt bytesBetween
  rw [e1, if_pos (by omega), Int.toNat_ofNat, e2]
theorem bigEndianBytes_four (m : Nat) : bigEndianBytes 4 m = BE32 m := by
  simp [bigEndianBytes, BE32, List.range_succ]
theorem bigEndianBytes_two (m : Nat) : bigEndianBytes 2 m = BE16 m := by
  simp [bigEndianBytes, BE16, List.range_succ]
theorem bigEndianBytes_three (m : Nat) :
    bigEndianBytes 3 m = [m / 65536 % 256, m / 256 % 256, m % 256] := by
  simp [bigEndianBytes, List.range_succ]
theorem bigEndianBytes_one (m : Nat) : bigEndianBytes 1 m = [m % 256] := by
  simp [bigEndianBytes, List.range_succ]
theorem bigEndianBytes_zero (m : Nat) : bigEndianBytes 0 m = [] := by
  simp [bigEndianBytes]

theorem bigEndian_one (a : Nat) : bigEndian [a] = a := by
  simp [bigEndian]

theorem bigEndian_three (a b c : Nat) : bigEndian [a, b, c] = (a * 256 + b) * 256 + c := by
  simp [bigEndian]

theorem ConvertIntToBytes_eq_bigEndianBytes (n : Int) (k : Nat) (hk : k ≤ 4) :
    MemcachedUtils.ConvertIntToBytes n k = bigEndianBytes k (n % 256 ^ k).toNat := by
  interval_cases k
  · rw [ConvertIntToBytes_zero, bigEndianBytes_zero]
  · rw [ConvertIntToBytes_one, bigEndianBytes_one]
    simp only [toUChar_shift]
    have h4 : ((n / (2 : Int) ^ 0) % 256).toNat = (n % 256 ^ 1).toNat % 256 := by
      norm_num; omega
    rw [h4]
  · rw [MemcachedUtils.ConvertIntToBytes_two, bigEndianBytes_two]
    simp only [toUChar_shift, BE16]
    have h3 : ((n / (2 : Int) ^ 8) % 256).toNat = (n % 256 ^ 2).toNat / 256 % 256 := by
      norm_num; omega
    have h4 : ((n / (2 : Int) ^ 0) % 256).toNat = (n % 256 ^ 2).toNat % 256 := by
      norm_num; omega
    rw [h3, h4]
  · rw [ConvertIntToBytes_three, bigEndianBytes_three]
    simp only [toUChar_shift]
    have h2 : ((n / (2 : Int) ^ 16) % 256).toNat = (n % 256 ^ 3).toNat / 65536 % 256 := by
      norm_num; omega
    have h3 : ((n / (2 : Int) ^ 8) % 256).toNat = (n % 256 ^ 3).toNat / 256 % 256 := by
      norm_num; omega
    have h4 : ((n / (2 : Int) ^ 0) % 256).toNat = (n % 256 ^ 3).toNat % 256 := by
      norm_num; omega
    rw [h2, h3, h4]
  · rw [ConvertIntToBytes_four_BE32, bigEndianBytes_four]
    rfl

theorem bigEndian_bigEndianBytes (k m : Nat) (hk : k ≤ 4) (hm : m < 256 ^ k) :
    bigEndian (bigEndianBytes k m) = m := by
  interval_cases k
  · rw [bigEndianBytes_zero]
    simp [bigEndian]
    omega
  · rw [bigEndianBytes_one, bigEndian_one]
    omega
  · rw [bigEndianBytes_two, BE16, bigEndian_two]
    omega
  · rw [bigEndianBytes_three, bigEndian_three]
    omega
  · rw [bigEndianBytes_four, BE32, bigEndian_four]
    omega

theorem bigEndianBytes_length (k m : Nat) : (bigEndianBytes k m).length = k := by
  simp [bigEndianBytes]

theorem bigEndianBytes_lt (k m : Nat) : ∀ b ∈ bigEndianBytes k m, b < 256 := by
  intro b hb
  simp only [bigEndianBytes, List.mem_map] at hb
  obtain ⟨i, _, rfl⟩ := hb
  exact Nat.mod_lt _ (by decide)

/-! ## process_value -/

namespace DataBufferSlice

theorem ptrAdd_eq (s : DataBufferSlice) (p n : Nat)
    (h : s.data + s.size < 18446744073709551616 → p + n < 18446744073709551616) :
    s.ptrAdd p n = p + n := by
  unfold ptrAdd
  split
  · rename_i hr
    exact Nat.mod_eq_of_lt (h hr)
  · rfl

theorem ptrAdd_real (s : DataBufferSlice) (p n : Nat)
    (h : s.data + s.size < 18446744073709551616) :
    s.ptrAdd p n = (p + n) % 18446744073709551616 := by
  unfold ptrAdd
  rw [if_pos h]

theorem process_value_eq (s : DataBufferSlice) (n : Nat) :
    s.process_value n =
      if s.ptrAdd s.pending_data n > s.data + s.size then (none, s)
      else (some (s.ptrAdd (s.ptrAdd (s.ptrAdd s.pending_data n) 2) n),
        { s with pending_data := s.ptrAdd (s.ptrAdd s.pending_data n) 2,
                 parse_state := nextState s.parse_state }) := by
  unfold process_value
  split
  · rfl
  · simp only [MarkProcessedUntil_eq]

theorem process_value_ok (s : DataBufferSlice) (n : Nat)
    (h : s.pending_data + n ≤ s.data + s.size)
    (h2 : s.data + s.size < 18446744073709551616 →
      s.pending_data + n + 2 < 18446744073709551616) :
    s.process_value n = (some (s.ptrAdd (s.pending_data + n + 2) n),
      { s with pending_data := s.pending_data + n + 2,
               parse_state := nextState s.parse_state }) := by
  have e1 : s.ptrAdd s.pending_data n = s.pending_data + n :=
    ptrAdd_eq s _ _ (fun hr => by have := h2 hr; omega)
  have e2 : s.ptrAdd (s.pending_data + n) 2 = s.pending_data + n + 2 := ptrAdd_eq s _ _ h2
  rw [process_value_eq, e1, e2, if_neg (by omega)]

theorem process_value_short (s : DataBufferSlice) (n : Nat)
    (h : s.pending_data + n > s.data + s.size)
    (h2 : s.pending_data + n < 18446744073709551616) : s.process_value n = (none, s) := by
  have e1 : s.ptrAdd s.pending_data n = s.pending_data + n := ptrAdd_eq s _ _ (fun _ => h2)
  rw [process_value_eq, e1, if_pos h]

end DataBufferSlice

/-! ## The bytes a match stands on -/

theorem isPrefixOf_cons_drop (mem : List Nat) (a : Nat) (rest : List Nat) (pos : Nat)
    (h : (a :: rest).isPrefixOf (mem.drop pos) = true) :
    mem.getD pos 0 = a ∧ rest.isPrefixOf (mem.drop (pos + 1)) = true := by
  cases hd : mem.drop pos with
  | nil => rw [hd] at h; simp [List.isPrefixOf] at h
  | cons x xs =>
    rw [hd] at h
    have h' : (a == x && rest.isPrefixOf xs) = true := h
    rw [Bool.and_eq_true] at h'
    have hx : a = x := by simpa using h'.1
    have h0 : mem[pos]? = some x := by
      have := congrArg (fun l => l[0]?) hd
      simpa [List.getElem?_drop] using this
    have h1 : mem.drop (pos + 1) = xs := by
      have := congrArg (fun l => l.drop 1) hd
      simpa [List.drop_drop, Nat.add_comm] using this
    refine ⟨?_, ?_⟩
    · rw [List.getD_eq_getElem?_getD, h0, hx]
      rfl
    · rw [h1]
      exact h'.2

/-- A successful `strstr` for a one-byte or two-byte marker without NUL ends at
or before every NUL byte that lies at or after the start. -/
theorem strstr_before_nul (mem : List Nat) (p : Nat) (a : Nat) (rest : List Nat) (pos z : Nat)
    (ha : a ≠ 0) (hr : ∀ b ∈ rest, b ≠ 0) (hlen : rest.length ≤ 1)
    (h : strstr mem p (a :: rest) = some pos) (hz : p ≤ z) (hz0 : mem.getD z 0 = 0) :
    pos + (a :: rest).length ≤ z := by
  obtain ⟨h1, h2, h3⟩ := (strstr_iff mem p (a :: rest) pos).mp h
  have hge : pos ≤ z := by
    by_contra hc
    exact (h3 z hz (by omega)).1 hz0
  obtain ⟨ga, grest⟩ := isPrefixOf_cons_drop mem a rest pos h2
  have hne : z ≠ pos := by
    intro e
    rw [e, ga] at hz0
    exact ha hz0
  cases rest with
  | nil => simp; omega
  | cons b rest' =>
    have hb : b ≠ 0 := hr b (List.mem_cons_self _ _)
    obtain ⟨gb, _⟩ := isPrefixOf_cons_drop mem b rest' (pos + 1) grest
    have hne2 : z ≠ pos + 1 := by
      intro e
      rw [e, gb] at hz0
      exact hb hz0
    have hl : rest'.length = 0 := by simpa using hlen
    simp [hl]
    omega
namespace DataBufferSlice

/-- C1 (amended): one-shot parse of a value response. For every key `k` without
space, NUL, CR or LF, every text `f` of decimal digits and every value `v`, when
the window `"VALUE " ++ k ++ " " ++ f ++ " " ++ decimal(|v|) ++ "\r\n" ++ v ++
"\r\nEND\r\n"` is shorter than 2^31 bytes (it may lie anywhere in memory, between
`pre` and `post`), the calls next_value_delim, next_whitespace, next_whitespace,
next_crlf, process_value(|v|) on a fresh slice all return a pointer; the bytes
between the cursor and the next match are `k`, `f` and `decimal(|v|)`; the cursor
before process_value is at the first byte of `v`; afterwards the cursor is at
`"END\r\n"`, five bytes before the window end, the state is VALUE_DELIM, a
further next_value_delim returns null and reached_end() is true. -/
theorem C1_one_shot_parse (pre post k f v : List Nat)
    (hkb : ∀ b ∈ k, b ≠ 32 ∧ b ≠ 0 ∧ b ≠ 13 ∧ b ≠ 10)
    (hf : ∀ b ∈ f, 48 ≤ b ∧ b ≤ 57)
    (hlen : (valueResponse k f v).length < 2147483648) :
    ∃ s1 p2 s2 p3 s3 p4 s4 p5 s5,
      next_value_delim (pre ++ valueResponse k f v ++ post)
          (DataBufferSlice.new pre.length (valueResponse k f v).length) = (some pre.length, s1) ∧
      next_whitespace (pre ++ valueResponse k f v ++ post) s1 = (some p2, s2) ∧
      bytesBetween (pre ++ valueResponse k f v ++ post) s1.pending_data p2 = k ∧
      next_whitespace (pre ++ valueResponse k f v ++ post) s2 = (some p3, s3) ∧
      bytesBetween (pre ++ valueResponse k f v ++ post) s2.pending_data p3 = f ∧
      next_crlf (pre ++ valueResponse k f v ++ post) s3 = (some p4, s4) ∧
      bytesBetween (pre ++ valueResponse k f v ++ post) s3.pending_data p4 = decimal v.length ∧
      bytesBetween (pre ++ valueResponse k f v ++ post) s4.pending_data
          (s4.pending_data + v.length) = v ∧
      process_value s4 v.length = (some p5, s5) ∧
      s5.pending_data + 5 = pre.length + (valueResponse k f v).length ∧
      bytesBetween (pre ++ valueResponse k f v ++ post) s5.pending_data
          (s5.pending_data + 5) = lit "END\r\n" ∧
      s5.parse_state = ResponseFormatState.VALUE_DELIM ∧
      (next_value_delim (pre ++ valueResponse k f v ++ post) s5).1 = none ∧
      reached_end (pre ++ valueResponse k f v ++ post) s5 = true := by
  have hdec := decimal_digits v.length
  have hw : valueResponse k f v = [86, 65, 76, 85, 69, 32] ++ (k ++ ([32] ++ (f ++ ([32] ++
      (decimal v.length ++ ([13, 10] ++ (v ++ [13, 10, 69, 78, 68, 13, 10]))))))) := by
    simp [valueResponse, lit_value, lit_space, lit_crlf, lit_crlf_end]
  generalize decimal v.length = dec at hdec hw
  generalize hmem : pre ++ valueResponse k f v ++ post = mem
  generalize hn : (valueResponse k f v).length = n at hlen
  have hn' : n = 6 + k.length + 1 + f.length + 1 + dec.length + 2 + v.length + 7 := by
    rw [← hn, hw]; simp; omega
  rw [hw] at hmem
  refine ⟨{ DataBufferSlice.new pre.length n with
              pending_data := pre.length + 6, parse_state := .KEY_NAME },
    pre.length + 6 + k.length,
    { DataBufferSlice.new pre.length n with
              pending_data := pre.length + 6 + k.length + 1, parse_state := .FLAGS },
    pre.length + 6 + k.length + 1 + f.length,
    { DataBufferSlice.new pre.length n with
              pending_data := pre.length + 6 + k.length + 1 + f.length + 1,
              parse_state := .NUM_DATA_BYTES },
    pre.length + 6 + k.length + 1 + f.length + 1 + dec.length,
    { DataBufferSlice.new pre.length n with
              pending_data := pre.length + 6 + k.length + 1 + f.length + 1 + dec.length + 2,
              parse_state := .DATA },
    DataBufferSlice.ptrAdd (DataBufferSlice.new pre.length n)
      (pre.length + 6 + k.length + 1 + f.length + 1 + dec.length + 2 + v.length + 2) v.length,
    { DataBufferSlice.new pre.length n with
              pending_data :=
                pre.length + 6 + k.length + 1 + f.length + 1 + dec.length + 2 + v.length + 2,
              parse_state := .VALUE_DELIM },
    ?_, ?_, ?_, ?_, ?_, ?_, ?_, ?_, ?_, ?_, ?_, ?_, ?_, ?_⟩
  · have h := memmem_head_at mem pre ([86, 65, 76, 85, 69, 32] ++ (k ++ ([32] ++ (f ++ ([32] ++
      (dec ++ ([13, 10] ++ (v ++ [13, 10, 69, 78, 68, 13, 10]))))))))
      post (lit "VALUE ") pre.length n (by rw [← hmem]; simp) rfl (by rw [hn']; simp; omega)
      (by rw [lit_value, List.isPrefixOf_iff_prefix]; exact List.prefix_append _ _)
    have hb : (DataBufferSlice.new pre.length n).bytes_pending = toInt32 n := by
      simp [bytes_pending, DataBufferSlice.new]
    simp only [next_value_delim, hb, toSizeT_toInt32 n hlen]
    have hp : (DataBufferSlice.new pre.length n).pending_data = pre.length := rfl
    rw [hp, h]
    simp [MarkProcessedUntil_eq, DataBufferSlice.new, nextState]
  · have h := strstr_skip_at mem (pre ++ [86, 65, 76, 85, 69, 32]) k
      (f ++ ([32] ++ (dec ++ ([13, 10] ++ (v ++ ([13, 10, 69, 78, 68, 13, 10] ++ post))))))
      32 [] (pre.length + 6) (by rw [← hmem]; simp) (by simp)
      (fun b hb => ⟨(hkb b hb).2.1, (hkb b hb).1⟩)
    simp only [next_whitespace, lit_space, h]
    simp [MarkProcessedUntil_eq, DataBufferSlice.new, nextState]
    omega
  · exact bytesBetween_at mem (pre ++ [86, 65, 76, 85, 69, 32]) k
      ([32] ++ (f ++ ([32] ++ (dec ++ ([13, 10] ++ (v ++ ([13, 10, 69, 78, 68, 13, 10] ++ post)))))))
      _ _ (by rw [← hmem]; simp) (by simp) (by simp; omega)
  · have h := strstr_skip_at mem (pre ++ [86, 65, 76, 85, 69, 32] ++ k ++ [32]) f
      (dec ++ ([13, 10] ++ (v ++ ([13, 10, 69, 78, 68, 13, 10] ++ post))))
      32 [] (pre.length + 6 + k.length + 1) (by rw [← hmem]; simp) (by simp; omega)
      (fun b hb => by have := hf b hb; omega)
    simp only [next_whitespace, lit_space, h]
    simp [MarkProcessedUntil_eq, DataBufferSlice.new, nextState]
    omega
  · exact bytesBetween_at mem (pre ++ [86, 65, 76, 85, 69, 32] ++ k ++ [32]) f
      ([32] ++ (dec ++ ([13, 10] ++ (v ++ ([13, 10, 69, 78, 68, 13, 10] ++ post)))))
      _ _ (by rw [← hmem]; simp) (by simp; omega) (by simp; omega)
  · have h := strstr_skip_at mem (pre ++ [86, 65, 76, 85, 69, 32] ++ k ++ [32] ++ f ++ [32]) dec
      (v ++ ([13, 10, 69, 78, 68, 13, 10] ++ post))
      13 [10] (pre.length + 6 + k.length + 1 + f.length + 1) (by rw [← hmem]; simp) (by simp; omega)
      (fun b hb => by have := hdec b hb; omega)
    simp only [next_crlf, lit_crlf, h]
    simp [MarkProcessedUntil_eq, DataBufferSlice.new, nextState]
    omega
  · exact bytesBetween_at mem (pre ++ [86, 65, 76, 85, 69, 32] ++ k ++ [32] ++ f ++ [32]) dec
      ([13, 10] ++ (v ++ ([13, 10, 69, 78, 68, 13, 10] ++ post)))
      _ _ (by rw [← hmem]; simp) (by simp; omega) (by simp; omega)
  · exact bytesBetween_at mem
      (pre ++ [86, 65, 76, 85, 69, 32] ++ k ++ [32] ++ f ++ [32] ++ dec ++ [13, 10]) v
      ([13, 10, 69, 78, 68, 13, 10] ++ post)
      _ _ (by rw [← hmem]; simp) (by simp; omega) (by simp; omega)
  · rw [process_value_ok _ v.length (by simp only [DataBufferSlice.new]; omega)
      (by simp only [DataBufferSlice.new]; omega)]
    rfl
  · simp only [DataBufferSlice.new]; omega
  · rw [lit_end]
    exact bytesBetween_at mem
      (pre ++ [86, 65, 76, 85, 69, 32] ++ k ++ [32] ++ f ++ [32] ++ dec ++ [13, 10] ++ v ++ [13, 10])
      [69, 78, 68, 13, 10] post
      _ _ (by rw [← hmem]; simp) (by simp; omega) (by simp; omega)
  · rfl
  · have h := memmem_short_at mem
      (pre ++ [86, 65, 76, 85, 69, 32] ++ k ++ [32] ++ f ++ [32] ++ dec ++ [13, 10] ++ v ++ [13, 10])
      [69, 78, 68, 13, 10] post (lit "VALUE ")
      (pre.length + 6 + k.length + 1 + f.length + 1 + dec.length + 2 + v.length + 2) 5
      (by rw [← hmem]; simp) (by simp; omega) (by simp) (by simp [lit_value])
    have hb : toSizeT (bytes_pending { DataBufferSlice.new pre.length n with
              pending_data :=
                pre.length + 6 + k.length + 1 + f.length + 1 + dec.length + 2 + v.length + 2,
              parse_state := .VALUE_DELIM }) = 5 := by
      simp only [bytes_pending, DataBufferSlice.new, toSizeT, toInt32]
      omega
    simp only [next_value_delim, hb, h]
  · have h : memAt mem (((pre.length : Int) + n) - 5) = [69, 78, 68, 13, 10] ++ post := by
      have e : ((pre.length : Int) + n) - 5 = ((pre.length + 6 + k.length + 1 + f.length + 1
          + dec.length + 2 + v.length + 2 : Nat) : Int) := by omega
      rw [e, memAt, if_pos (by omega), Int.toNat_ofNat]
      exact drop_at mem (pre ++ [86, 65, 76, 85, 69, 32] ++ k ++ [32] ++ f ++ [32] ++ dec
        ++ [13, 10] ++ v ++ [13, 10]) ([69, 78, 68, 13, 10] ++ post) _
        (by rw [← hmem]; simp) (by simp; omega)
    simp only [reached_end, DataBufferSlice.new, h, lit_end]
    simp [strncmpIsZero]

/-- C1, witness: the response `VALUE foo 0 3\r\nbar\r\nEND\r\n` (key `foo`, flags
`0`, value `bar`). -/
theorem C1_one_shot_parse_witness :
    valueResponse (lit "foo") (lit "0") (lit "bar") = lit "VALUE foo 0 3\r\nbar\r\nEND\r\n" ∧
    ∃ s1 p2 s2 p3 s3 p4 s4 p5 s5,
      next_value_delim (valueResponse (lit "foo") (lit "0") (lit "bar"))
          (DataBufferSlice.new 0 (valueResponse (lit "foo") (lit "0") (lit "bar")).length) = (some 0, s1) ∧
      next_whitespace (valueResponse (lit "foo") (lit "0") (lit "bar")) s1 = (some p2, s2) ∧
      bytesBetween (valueResponse (lit "foo") (lit "0") (lit "bar")) s1.pending_data p2 = lit "foo" ∧
      next_whitespace (valueResponse (lit "foo") (lit "0") (lit "bar")) s2 = (some p3, s3) ∧
      bytesBetween (valueResponse (lit "foo") (lit "0") (lit "bar")) s2.pending_data p3 = lit "0" ∧
      next_crlf (valueResponse (lit "foo") (lit "0") (lit "bar")) s3 = (some p4, s4) ∧
      bytesBetween (valueResponse (lit "foo") (lit "0") (lit "bar")) s3.pending_data p4 = lit "3" ∧
      bytesBetween (valueResponse (lit "foo") (lit "0") (lit "bar")) s4.pending_data
          (s4.pending_data + 3) = lit "bar" ∧
      process_value s4 3 = (some p5, s5) ∧
      s5.pending_data + 5 = (valueResponse (lit "foo") (lit "0") (lit "bar")).length ∧
      bytesBetween (valueResponse (lit "foo") (lit "0") (lit "bar")) s5.pending_data
          (s5.pending_data + 5) = lit "END\r\n" ∧
      s5.parse_state = ResponseFormatState.VALUE_DELIM ∧
      (next_value_delim (valueResponse (lit "foo") (lit "0") (lit "bar")) s5).1 = none ∧
      reached_end (valueResponse (lit "foo") (lit "0") (lit "bar")) s5 = true :=
  ⟨by decide,
    C1_one_shot_parse [] [] (lit "foo") (lit "0") (lit "bar") (by decide) (by decide) (by decide)⟩

/-- C1, counterexample: for key `a`, flags `0` and a value of 4294967267 zero
bytes the window is 2^32 bytes long; `bytes_pending()` is then 0 as an `int32_t`
and the first call, next_value_delim on the fresh slice, returns null. -/
theorem C1_counterexample_4GiB_window :
    (valueResponse [97] [48] (List.replicate 4294967267 0)).length = 4294967296 ∧
    (next_value_delim (valueResponse [97] [48] (List.replicate 4294967267 0))
      (DataBufferSlice.new 0 (valueResponse [97] [48] (List.replicate 4294967267 0)).length)).1
      = none := by
  have hd : decimal 4294967267 = [52, 50, 57, 52, 57, 54, 55, 50, 54, 55] := by decide
  have hl : (valueResponse [97] [48] (List.replicate 4294967267 0)).length = 4294967296 := by
    rw [valueResponse_length, List.length_replicate, hd]
    rfl
  refine ⟨hl, ?_⟩
  rw [hl]
  have hb : toSizeT (bytes_pending (DataBufferSlice.new 0 4294967296)) = 0 := by decide
  simp only [next_value_delim, hb, memmem, List.take_zero]
  rfl

end DataBufferSlice

namespace DataBufferSlice

/-- C2, the code at the failing input: in `VALUE foo 0 3\r\nbar\r\nEND\r\n` the value
`bar` is at the addresses 15..17. With the cursor at 15, process_value(3) moves the
cursor to 20 = 15 + 3 + 2 and returns the pointer 23, the moved cursor plus 3, where
the claim has the value's start 15. -/
theorem C2_process_value_returns_moved_cursor :
    bytesBetween (lit "VALUE foo 0 3\r\nbar\r\nEND\r\n") 15 18 = lit "bar" ∧
    process_value
        { DataBufferSlice.new 0 25 with pending_data := 15, parse_state := .DATA } 3
      = (some 23,
         { DataBufferSlice.new 0 25 with pending_data := 20, parse_state := .VALUE_DELIM }) := by
  decide

/-- C3, counterexample: a window of 25 bytes at address 4096 (window end 4121), the
cursor at 4111, and the declared length `n = 2^64 - 3`. As integers `cursor + n`
is far beyond the window end, but the 64-bit pointer sum is 4108, so the call
does not return null: it moves the cursor to 4110. -/
theorem C3_counterexample_wrapping_length :
    (4111 + 18446744073709551613 > 4096 + 25) ∧
    process_value
        { DataBufferSlice.new 4096 25 with pending_data := 4111, parse_state := .DATA }
        18446744073709551613
      = (some 4107,
         { DataBufferSlice.new 4096 25 with pending_data := 4110,
                                            parse_state := .VALUE_DELIM }) := by
  decide

/-- C3 (amended): for every object and every declared length `n` whose pointer
sum does not wrap (`cursor + n < 2^64`), process_value(n) returns null if and only
if `cursor + n` is beyond the window end; the object (cursor, parse state) is then
unchanged, and the same call on the same object over a window whose size leaves
at least `n` bytes after the cursor returns a pointer. -/
theorem C3_process_value_insufficient_data (s : DataBufferSlice) (n : Nat)
    (hn : s.pending_data + n < 18446744073709551616) :
    ((s.process_value n).1 = none ↔ s.pending_data + n > s.data + s.size) ∧
    ((s.process_value n).1 = none → (s.process_value n).2 = s) ∧
    (∀ size', s.pending_data + n ≤ s.data + size' →
      ∃ p, (process_value { s with size := size' } n).1 = some p) := by
  have key : ∀ t : DataBufferSlice, t.pending_data = s.pending_data →
      t.pending_data + n ≤ t.data + t.size → ∃ p, (t.process_value n).1 = some p := by
    intro t ht hle
    have e1 : t.ptrAdd t.pending_data n = t.pending_data + n :=
      ptrAdd_eq t _ _ (fun _ => by rw [ht]; exact hn)
    rw [process_value_eq, e1, if_neg (by omega)]
    exact ⟨_, rfl⟩
  refine ⟨?_, ?_, ?_⟩
  · by_cases h : s.pending_data + n > s.data + s.size
    · simp [process_value_short s n h hn, h]
    · obtain ⟨p, hp⟩ := key s rfl (by omega)
      simp [hp, h]
  · intro h0
    by_cases h : s.pending_data + n > s.data + s.size
    · rw [process_value_short s n h hn]
    · obtain ⟨p, hp⟩ := key s rfl (by omega)
      rw [hp] at h0
      cases h0
  · intro size' h
    exact key { s with size := size' } rfl h

/-- C3, witness: with the cursor at 15 in a window of 17 bytes, process_value(3)
returns null and leaves the object; in a window of 18 bytes it returns a
pointer. -/
theorem C3_process_value_insufficient_data_witness :
    (process_value { DataBufferSlice.new 0 17 with pending_data := 15, parse_state := .DATA }
        3).1 = none ∧
    ∃ p, (process_value { DataBufferSlice.new 0 18 with pending_data := 15, parse_state := .DATA }
        3).1 = some p :=
  ⟨(C3_process_value_insufficient_data
      { DataBufferSlice.new 0 17 with pending_data := 15, parse_state := .DATA } 3
      (by decide)).1.mpr (by decide),
    (C3_process_value_insufficient_data
      { DataBufferSlice.new 0 17 with pending_data := 15, parse_state := .DATA } 3
      (by decide)).2.2 18 (by decide)⟩

end DataBufferSlice

/-- C4, counterexample: calls that start with the cursor inside the window and
leave it behind the window end, and a call that moves it backward. (1) The window
is the first 5 bytes of `abcdkey=`: next_key_pos matches at 4, inside the window,
and moves the cursor to 8. (2) The window is the first 2 bytes of `ab x`:
next_whitespace finds the space at address 2, behind the window, and moves the
cursor to 3. (3) The window is `VALUE foo 0 3\r\nbar` (18 bytes, cursor at 15):
process_value(3) moves the cursor to 20. (4) In a window of 25 bytes at 4096 with
the cursor at 4111, process_value(2^64 - 3) moves the cursor back to 4110. -/
theorem C4_counterexample_cursor_leaves_window :
    ((MetaBufferSlice.new 0 5).pending_data ≤ 0 + 5 ∧
      5 < ((MetaBufferSlice.new 0 5).next_key_pos (lit "abcdkey=" ++ [0])).2.pending_data) ∧
    ((DataBufferSlice.new 0 2).pending_data ≤ 0 + 2 ∧
      2 < ((DataBufferSlice.new 0 2).next_whitespace (lit "ab x" ++ [0])).2.pending_data) ∧
    (15 ≤ 0 + 18 ∧
      18 < (DataBufferSlice.process_value
              { DataBufferSlice.new 0 18 with pending_data := 15, parse_state := .DATA }
              3).2.pending_data) ∧
    (4096 ≤ 4111 ∧ 4111 ≤ 4096 + 25 ∧
      (DataBufferSlice.process_value
          { DataBufferSlice.new 4096 25 with pending_data := 4111, parse_state := .DATA }
          18446744073709551613).2.pending_data = 4110) := by
  decide

/-- C4 (amended): what the scans keep of the cursor invariant. Every scan of a
MetaBufferSlice and next_value_delim, next_whitespace, next_crlf of a
DataBufferSlice leave the cursor at or after the place it had, for every memory;
so does process_value(n) when `cursor + n + 2 < 2^64`; in these cases
`window_start ≤ cursor` is kept. A MetaBufferSlice scan that returns a position
returns one before `slice_end_` and puts the cursor right behind the marker found
there. next_value_delim keeps `cursor ≤ window_end` when fewer than 2^31 bytes are
pending. process_value(n) with `cursor + n + 2 < 2^64` leaves the cursor at most 2
bytes behind the window end. next_whitespace and next_crlf, when they return a
position, leave the cursor at or before every NUL byte that lies at or after the
old cursor. -/
theorem C4_cursor_monotone :
    (∀ (mem : List Nat) (s : MetaBufferSlice) (op : MetaScan),
      s.pending_data ≤ (op.run mem s).2.pending_data ∧
      (∀ pos, (op.run mem s).1 = some pos →
        pos < s.slice_end ∧ (op.run mem s).2.pending_data = pos + op.marker.length)) ∧
    (∀ (mem : List Nat) (s : DataBufferSlice),
      s.pending_data ≤ (s.next_value_delim mem).2.pending_data ∧
      s.pending_data ≤ (s.next_whitespace mem).2.pending_data ∧
      s.pending_data ≤ (s.next_crlf mem).2.pending_data) ∧
    (∀ (s : DataBufferSlice) (n : Nat), s.pending_data + n + 2 < 18446744073709551616 →
      s.pending_data ≤ (s.process_value n).2.pending_data ∧
      (s.pending_data ≤ s.data + s.size →
        (s.process_value n).2.pending_data ≤ s.data + s.size + 2)) ∧
    (∀ (mem : List Nat) (s : DataBufferSlice),
      s.pending_data ≤ s.data + s.size → s.data + s.size < s.pending_data + 2147483648 →
      (s.next_value_delim mem).2.pending_data ≤ s.data + s.size) ∧
    (∀ (mem : List Nat) (s : DataBufferSlice) (pos z : Nat),
      s.pending_data ≤ z → mem.getD z 0 = 0 →
      ((s.next_whitespace mem).1 = some pos →
        (s.next_whitespace mem).2.pending_data = pos + 1 ∧
        (s.next_whitespace mem).2.pending_data ≤ z) ∧
      ((s.next_crlf mem).1 = some pos →
        (s.next_crlf mem).2.pending_data = pos + 2 ∧
        (s.next_crlf mem).2.pending_data ≤ z)) := by
  refine ⟨?_, ?_, ?_, ?_, ?_⟩
  · intro mem s op
    rw [MetaBufferSlice.run_eq]
    cases h : strstr mem s.pending_data op.marker with
    | none => simp
    | some pos =>
      have hge := strstr_ge _ _ _ _ h
      by_cases hlt : pos < s.slice_end
      · simp only [if_pos hlt]
        refine ⟨by show s.pending_data ≤ pos + op.marker.length; omega, ?_⟩
        intro q hq
        simp at hq
        subst hq
        exact ⟨hlt, rfl⟩
      · simp [if_neg hlt]
  · intro mem s
    refine ⟨?_, ?_, ?_⟩
    · simp only [DataBufferSlice.next_value_delim]
      cases h : memmem mem s.pending_data (toSizeT s.bytes_pending) (lit "VALUE ") with
      | none => simp
      | some pos =>
        have := (memmem_bound _ _ _ _ _ h).1
        simp [DataBufferSlice.MarkProcessedUntil_eq]
        omega
    · simp only [DataBufferSlice.next_whitespace]
      cases h : strstr mem s.pending_data (lit " ") with
      | none => simp
      | some pos =>
        have := strstr_ge _ _ _ _ h
        simp [DataBufferSlice.MarkProcessedUntil_eq]
        omega
    · simp only [DataBufferSlice.next_crlf]
      cases h : strstr mem s.pending_data (lit "\r\n") with
      | none => simp
      | some pos =>
        have := strstr_ge _ _ _ _ h
        simp [DataBufferSlice.MarkProcessedUntil_eq]
        omega
  · intro s n hn
    by_cases h : s.pending_data + n > s.data + s.size
    · rw [DataBufferSlice.process_value_short s n h (by omega)]
      exact ⟨Nat.le_refl _, fun h1 => Nat.le_trans h1 (Nat.le_add_right _ _)⟩
    · rw [DataBufferSlice.process_value_ok s n (by omega) (fun _ => hn)]
      refine ⟨?_, fun _ => ?_⟩
      · show s.pending_data ≤ s.pending_data + n + 2
        omega
      · show s.pending_data + n + 2 ≤ s.data + s.size + 2
        omega
  · intro mem s h1 h2
    simp only [DataBufferSlice.next_value_delim]
    have hb : toSizeT s.bytes_pending = s.data + s.size - s.pending_data := by
      simp only [DataBufferSlice.bytes_pending, toSizeT, toInt32]
      omega
    cases h : memmem mem s.pending_data (toSizeT s.bytes_pending) (lit "VALUE ") with
    | none => simpa using h1
    | some pos =>
      have := (memmem_bound _ _ _ _ _ h).2
      rw [hb, lit_value] at this
      simp [DataBufferSlice.MarkProcessedUntil_eq]
      simp at this
      omega
  · intro mem s pos z hz hz0
    refine ⟨?_, ?_⟩
    · simp only [DataBufferSlice.next_whitespace]
      cases h : strstr mem s.pending_data (lit " ") with
      | none => intro h'; cases h'
      | some q =>
        intro h'
        have hq : q = pos := by simpa using h'
        subst hq
        rw [lit_space] at h
        have hb := strstr_before_nul mem s.pending_data 32 [] q z (by decide)
          (by intro b hb; cases hb) (by decide) h hz hz0
        simp only [DataBufferSlice.MarkProcessedUntil_eq]
        exact ⟨trivial, by simpa using hb⟩
    · simp only [DataBufferSlice.next_crlf]
      cases h : strstr mem s.pending_data (lit "\r\n") with
      | none => intro h'; cases h'
      | some q =>
        intro h'
        have hq : q = pos := by simpa using h'
        subst hq
        rw [lit_crlf] at h
        have hb := strstr_before_nul mem s.pending_data 13 [10] q z (by decide)
          (by decide) (by decide) h hz hz0
        simp only [DataBufferSlice.MarkProcessedUntil_eq]
        exact ⟨trivial, by simpa using hb⟩

/-- C6, counterexample: (1) the window is the 5 bytes NUL `k` `e` `y` `=`, the
cursor at its start: the marker `key=` stands at address 1, inside the window,
and next_key_pos returns null with the object unchanged, because the C string at
the cursor is empty. (2) The window is the first 5 bytes of `abcdkey=`: `key=`
does not fit between the cursor and the window end, there is no `key=` in the
window's bytes `abcdk`, and next_key_pos returns the position 4 and moves the
cursor to 8. -/
theorem C6_counterexample_nul_and_straddle :
    ((lit "key=").isPrefixOf ((([0] ++ lit "key=" ++ [0]).drop 1).take 4) = true ∧
      (MetaBufferSlice.new 0 5).next_key_pos ([0] ++ lit "key=" ++ [0])
        = (none, MetaBufferSlice.new 0 5)) ∧
    (memmemFrom (lit "key=") ((lit "abcdkey=" ++ [0]).take 5) = none ∧
      (MetaBufferSlice.new 0 5).next_key_pos (lit "abcdkey=" ++ [0])
        = (some 4, { MetaBufferSlice.new 0 5 with pending_data := 8 })) := by
  decide

/-- C6 (amended): the scans of the key listing parser. For every memory content
and every object, each of next_key_pos, next_exp_pos, next_la_pos, next_newline
(markers `key=`, `exp=`, `la=`, `\n`) returns the position `pos` exactly when
`pos` is the first occurrence of its marker in the C string at the cursor (no NUL
byte and no earlier occurrence between the cursor and `pos`) and `pos` is before
`slice_end_`; it then sets the cursor to `pos` plus the marker length and changes
nothing else. It returns null, leaving the object (cursor, fill offset)
unchanged, exactly when there is no such position. -/
theorem C6_meta_scan (mem : List Nat) (s : MetaBufferSlice) (op : MetaScan) :
    (∀ pos, (op.run mem s).1 = some pos ↔
      (FirstOccurrence mem s.pending_data op.marker pos ∧ pos < s.slice_end)) ∧
    (∀ pos, (op.run mem s).1 = some pos →
      (op.run mem s).2 = { s with pending_data := pos + op.marker.length }) ∧
    ((op.run mem s).1 = none ↔
      ¬ ∃ pos, FirstOccurrence mem s.pending_data op.marker pos ∧ pos < s.slice_end) ∧
    ((op.run mem s).1 = none → (op.run mem s).2 = s) ∧
    (MetaScan.next_key_pos.run mem s = s.next_key_pos mem ∧
      MetaScan.next_exp_pos.run mem s = s.next_exp_pos mem ∧
      MetaScan.next_la_pos.run mem s = s.next_la_pos mem ∧
      MetaScan.next_newline.run mem s = s.next_newline mem) := by
  have key : ∀ pos, (op.run mem s).1 = some pos ↔
      (FirstOccurrence mem s.pending_data op.marker pos ∧ pos < s.slice_end) := by
    intro pos
    rw [MetaBufferSlice.run_eq, ← strstr_iff]
    cases h : strstr mem s.pending_data op.marker with
    | none => simp
    | some q =>
      by_cases hlt : q < s.slice_end
      · simp only [if_pos hlt, Option.some.injEq]
        constructor
        · intro e; subst e; exact ⟨rfl, hlt⟩
        · intro e; exact e.1
      · simp only [if_neg hlt]
        constructor
        · intro e; cases e
        · rintro ⟨e, h2⟩
          simp at e
          subst e
          exact absurd h2 hlt
  refine ⟨key, ?_, ?_, ?_, ⟨rfl, rfl, rfl, rfl⟩⟩
  · intro pos
    rw [MetaBufferSlice.run_eq]
    cases h : strstr mem s.pending_data op.marker with
    | none => simp
    | some q =>
      by_cases hlt : q < s.slice_end
      · simp only [if_pos hlt, Option.some.injEq]
        intro e; subst e; rfl
      · simp [if_neg hlt]
  · constructor
    · intro h0
      rintro ⟨pos, hpos⟩
      rw [← key pos, h0] at hpos
      cases hpos
    · intro h0
      cases hr : (op.run mem s).1 with
      | none => rfl
      | some pos => exact absurd ⟨pos, (key pos).mp hr⟩ h0
  · rw [MetaBufferSlice.run_eq]
    cases h : strstr mem s.pending_data op.marker with
    | none => simp
    | some q =>
      by_cases hlt : q < s.slice_end
      · simp [if_pos hlt]
      · simp [if_neg hlt]

/-- C7, counterexample. (A) The 10-byte window `0123456789` compacted from address
2: `window_start ≤ from ≤ window_start + n` holds, the tail `[2, 10)` and the
destination `[0, 8)` overlap, and the `memcpy` has no defined result. (B) A window
of 2^33 bytes compacted from its middle, address 2^32: the tail of `t = 2^32`
bytes does not overlap its destination and the memory afterwards is defined;
`start_copy_pos_` is a `uint32_t` and becomes 0, so buf_begin_fill() is the window
start, not `window_start + t`, and free_bytes() is 2^33, not `n - t = 2^32`. -/
theorem C7_counterexample_4GiB_tail :
    (MetaBufferSlice.CopyRemainingToStart (lit "0123456789" ++ [0])
        (MetaBufferSlice.new 0 10) 2).1 = none ∧
    (List.replicate 8589934592 1).length = 8589934592 ∧
    (MetaBufferSlice.CopyRemainingToStart (List.replicate 8589934592 1)
        (MetaBufferSlice.new 0 8589934592) 4294967296).1.isSome = true ∧
    (MetaBufferSlice.CopyRemainingToStart (List.replicate 8589934592 1)
        (MetaBufferSlice.new 0 8589934592) 4294967296).2.buf_begin_fill = 0 ∧
    (MetaBufferSlice.CopyRemainingToStart (List.replicate 8589934592 1)
        (MetaBufferSlice.new 0 8589934592) 4294967296).2.free_bytes = 8589934592 := by
  refine ⟨by decide, List.length_replicate _ _, ?_, ?_, ?_⟩
  · have h : toSizeT (((MetaBufferSlice.new 0 8589934592).data : Int)
        + (MetaBufferSlice.new 0 8589934592).size - (4294967296 : Nat)) = 4294967296 := by
      decide
    unfold MetaBufferSlice.CopyRemainingToStart
    simp only [h]
    unfold memcpy
    rw [if_neg (by decide)]
    rfl
  · rw [MetaBufferSlice.CopyRemainingToStart_snd]
    decide
  · rw [MetaBufferSlice.CopyRemainingToStart_snd]
    decide

/-- C7 (amended): the postcondition of compaction. For a MetaBufferSlice whose
window `[data, data + n)` lies inside the memory, a position `copy_from` with
`data ≤ copy_from ≤ data + n`, a tail length `t = n - (copy_from - data)` below
2^32 (`n` being a `size_t`) and a tail that does not overlap its destination,
`t ≤ copy_from - data`: CopyRemainingToStart(copy_from) has a defined result, in
which the first `t` bytes of the window are the bytes that were at
`[copy_from, data + n)`, the remaining `n - t` bytes of the window are zero, the
memory outside the window is as before, buf_begin_fill() is `data + t` and
free_bytes() is `n - t`. -/
theorem C7_compaction (mem : List Nat) (s : MetaBufferSlice) (copy_from : Nat)
    (hw : s.data + s.size ≤ mem.length) (hf1 : s.data ≤ copy_from)
    (hf2 : copy_from ≤ s.data + s.size)
    (ht : s.size - (copy_from - s.data) < 4294967296)
    (hn : s.size < 18446744073709551616)
    (hov : s.size - (copy_from - s.data) ≤ copy_from - s.data) :
    ∃ mem1, (s.CopyRemainingToStart mem copy_from).1 = some mem1 ∧
      bytesBetween mem1 s.data (s.data + (s.size - (copy_from - s.data)))
        = bytesBetween mem copy_from (s.data + s.size) ∧
      bytesBetween mem1 (s.data + (s.size - (copy_from - s.data))) (s.data + s.size)
        = List.replicate (s.size - (s.size - (copy_from - s.data))) 0 ∧
      mem1.take s.data = mem.take s.data ∧
      mem1.drop (s.data + s.size) = mem.drop (s.data + s.size) ∧
      (s.CopyRemainingToStart mem copy_from).2.buf_begin_fill
        = s.data + (s.size - (copy_from - s.data)) ∧
      (s.CopyRemainingToStart mem copy_from).2.free_bytes
        = s.size - (s.size - (copy_from - s.data)) ∧
      (s.CopyRemainingToStart mem copy_from).2.buf_begin_fill
          + (s.CopyRemainingToStart mem copy_from).2.free_bytes = s.data + s.size := by
  have et : s.size - (copy_from - s.data) = s.data + s.size - copy_from := by omega
  rw [et] at ht hov ⊢
  rw [MetaBufferSlice.CopyRemainingToStart_eq mem s copy_from hw hf1 hf2 ht hn hov]
  generalize ht' : s.data + s.size - copy_from = t at *
  have hbl : ((mem.drop copy_from).take t).length = t := by
    rw [List.length_take, List.length_drop]; omega
  have hd : (mem.take s.data).length = s.data := by
    rw [List.length_take]; omega
  have hbb : bytesBetween mem copy_from (s.data + s.size) = (mem.drop copy_from).take t := by
    unfold bytesBetween
    rw [ht']
  refine ⟨_, rfl, ?_, ?_, ?_, ?_, ?_, ?_, ?_⟩
  · rw [hbb]
    exact bytesBetween_at _ (mem.take s.data) ((mem.drop copy_from).take t)
      (List.replicate (s.size - t) 0 ++ mem.drop (s.data + s.size)) _ _
      (by simp [List.append_assoc]) hd.symm (by rw [hbl]; omega)
  · exact bytesBetween_at _ (mem.take s.data ++ (mem.drop copy_from).take t)
      (List.replicate (s.size - t) 0) (mem.drop (s.data + s.size)) _ _
      (by simp [List.append_assoc]) (by rw [List.length_append, hbl, hd])
      (by rw [List.length_replicate]; omega)
  · simp only [List.append_assoc]
    exact take_append_at _ _ _ hd.symm
  · exact drop_at _ (mem.take s.data ++ (mem.drop copy_from).take t
      ++ List.replicate (s.size - t) 0) _ _ rfl
      (by rw [List.length_append, List.length_append, hbl, hd, List.length_replicate]; omega)
  · rfl
  · show toSizeT ((s.size : Int) - (t : Nat)) = s.size - t
    unfold toSizeT; omega
  · show s.data + t + toSizeT ((s.size : Int) - (t : Nat)) = s.data + s.size
    unfold toSizeT; omega

/-- C7, witness: the 23-byte window `key=x exp=1 la=2\nkey=ab` compacted from
address 17, the start of the unfinished record `key=ab`: the tail of 6 bytes lies
behind the 17 bytes it is copied over. The memory afterwards is `key=ab`, 17
zero bytes and the byte behind the window. -/
theorem C7_compaction_witness :
    (∃ mem1, (MetaBufferSlice.CopyRemainingToStart (lit "key=x exp=1 la=2\nkey=ab" ++ [0])
          (MetaBufferSlice.new 0 23) 17).1 = some mem1 ∧
      bytesBetween mem1 0 (0 + (23 - (17 - 0)))
        = bytesBetween (lit "key=x exp=1 la=2\nkey=ab" ++ [0]) 17 (0 + 23) ∧
      bytesBetween mem1 (0 + (23 - (17 - 0))) (0 + 23)
        = List.replicate (23 - (23 - (17 - 0))) 0 ∧
      mem1.take 0 = (lit "key=x exp=1 la=2\nkey=ab" ++ [0]).take 0 ∧
      mem1.drop (0 + 23) = (lit "key=x exp=1 la=2\nkey=ab" ++ [0]).drop (0 + 23) ∧
      (MetaBufferSlice.CopyRemainingToStart (lit "key=x exp=1 la=2\nkey=ab" ++ [0])
          (MetaBufferSlice.new 0 23) 17).2.buf_begin_fill = 0 + (23 - (17 - 0)) ∧
      (MetaBufferSlice.CopyRemainingToStart (lit "key=x exp=1 la=2\nkey=ab" ++ [0])
          (MetaBufferSlice.new 0 23) 17).2.free_bytes = 23 - (23 - (17 - 0)) ∧
      (MetaBufferSlice.CopyRemainingToStart (lit "key=x exp=1 la=2\nkey=ab" ++ [0])
          (MetaBufferSlice.new 0 23) 17).2.buf_begin_fill
        + (MetaBufferSlice.CopyRemainingToStart (lit "key=x exp=1 la=2\nkey=ab" ++ [0])
          (MetaBufferSlice.new 0 23) 17).2.free_bytes = 0 + 23) ∧
    MetaBufferSlice.CopyRemainingToStart (lit "key=x exp=1 la=2\nkey=ab" ++ [0])
        (MetaBufferSlice.new 0 23) 17
      = (some (lit "key=ab" ++ List.replicate 17 0 ++ [0]),
          { MetaBufferSlice.new 0 23 with start_copy_pos := 6 }) :=
  ⟨C7_compaction (lit "key=x exp=1 la=2\nkey=ab" ++ [0]) (MetaBufferSlice.new 0 23) 17
    (by decide) (by decide) (by decide) (by decide) (by decide) (by decide), by decide⟩

/-- C8, counterexample: over the window `key=x exp=1 la=2\nkey=ab` the calls
next_key_pos, next_exp_pos, next_la_pos, next_newline, next_key_pos leave the
cursor at 21 (behind the second `key=`), and next_exp_pos returns null. After
CopyRemainingToStart(17), the start of the unfinished record, the tail `key=ab`
is at the window start and the cursor is still 21, not the window start 0; the
next scan, next_key_pos, looks at the zeroed bytes and returns null. -/
theorem C8_counterexample_cursor_not_reset :
    (runMetaScans (lit "key=x exp=1 la=2\nkey=ab" ++ [0]) (MetaBufferSlice.new 0 23)
        (lineScans ++ [.next_key_pos, .next_exp_pos])
      = ([some 0, some 6, some 12, some 16, some 17, none],
          { MetaBufferSlice.new 0 23 with pending_data := 21 })) ∧
    (MetaBufferSlice.CopyRemainingToStart (lit "key=x exp=1 la=2\nkey=ab" ++ [0])
        { MetaBufferSlice.new 0 23 with pending_data := 21 } 17
      = (some (lit "key=ab" ++ List.replicate 17 0 ++ [0]),
          { MetaBufferSlice.new 0 23 with pending_data := 21, start_copy_pos := 6 })) ∧
    (MetaBufferSlice.next_key_pos (lit "key=ab" ++ List.replicate 17 0 ++ [0])
        { MetaBufferSlice.new 0 23 with pending_data := 21, start_copy_pos := 6 }).1 = none := by
  decide

/-- C8 (amended): compaction does not move the parse cursor. For every memory,
every MetaBufferSlice and every `copy_from`, after CopyRemainingToStart(copy_from)
`pending_data()` is what it was before the call, as are the window and
`slice_end_`; only the memory and the fill offset change. The cursor is at the
window start in a newly constructed MetaBufferSlice. -/
theorem C8_compaction_keeps_cursor (mem : List Nat) (s : MetaBufferSlice) (copy_from : Nat)
    (d n : Nat) :
    (s.CopyRemainingToStart mem copy_from).2.pending_data_ptr = s.pending_data_ptr ∧
    (s.CopyRemainingToStart mem copy_from).2
      = { s with start_copy_pos := (s.CopyRemainingToStart mem copy_from).2.start_copy_pos } ∧
    (MetaBufferSlice.new d n).pending_data_ptr = d :=
  ⟨rfl, rfl, rfl⟩

/-- C9 (amended): fragmentation invariance through a newly constructed slice. Let
`p` be the unfinished tail at the end of a window `[data, data + n)` and `sfx` the
bytes that arrive next, with `|p| + |sfx| < n`, `|p| < 2^32` and `p` not
overlapping the window start it is copied to, `|p| ≤ n - |p|`. Then
CopyRemainingToStart at the start of `p` followed by a write of `sfx` at
buf_begin_fill() (`refillAfterCompaction`) has a defined result, in which every
sequence of scans (so next_key_pos, next_exp_pos, next_la_pos, next_newline) on a
MetaBufferSlice constructed afresh over the same window returns the same pointers
as on a fresh MetaBufferSlice over a buffer that holds the whole text `p ++ sfx`,
NUL-terminated, at the same address; and the window then starts with
`p ++ sfx`. -/
theorem C9_fragmentation_fresh_slice (mem : List Nat) (s : MetaBufferSlice)
    (p sfx preO restO : List Nat) (m : Nat) (ops : List MetaScan)
    (hw : s.data + s.size ≤ mem.length)
    (hp : bytesBetween mem (s.data + s.size - p.length) (s.data + s.size) = p)
    (hroom : p.length + sfx.length < s.size)
    (ht : p.length < 4294967296) (hn : s.size < 18446744073709551616)
    (hov : p.length ≤ s.size - p.length)
    (hO : preO.length = s.data) (hm : p.length + sfx.length ≤ m) :
    ∃ mem2, (refillAfterCompaction mem s (s.data + s.size - p.length) sfx).1 = some mem2 ∧
      (runMetaScans mem2 (MetaBufferSlice.new s.data s.size) ops).1
        = (runMetaScans (preO ++ (p ++ sfx) ++ 0 :: restO) (MetaBufferSlice.new s.data m)
            ops).1 ∧
      bytesBetween mem2 s.data (s.data + (p ++ sfx).length) = p ++ sfx := by
  obtain ⟨mem2, hm2, h1⟩ := compact_refill_drop mem s p sfx hw hp hroom ht hn hov
  have h2 : (preO ++ (p ++ sfx) ++ 0 :: restO).drop s.data = (p ++ sfx) ++ 0 :: restO :=
    drop_at _ preO _ _ (by simp [List.append_assoc]) hO.symm
  refine ⟨mem2, hm2, ?_, ?_⟩
  · exact runMetaScans_agree (p ++ sfx) s.data _ _ _ _ h1 h2 ops
      (MetaBufferSlice.new s.data s.size) (MetaBufferSlice.new s.data m) rfl
      (Nat.le_refl _) (Nat.le_add_right _ _)
      (by show s.data + (p ++ sfx).length ≤ s.data + s.size
          rw [List.length_append]; omega)
      (by show s.data + (p ++ sfx).length ≤ s.data + m
          rw [List.length_append]; omega)
  · unfold bytesBetween
    rw [h1, Nat.add_sub_cancel_left, List.take_left]

/-- C9, witness: the window `key=x exp=1 la=2\nkey=ab` whose first line has been
scanned (cursor 21), `p = key=ab` (6 bytes, copied over the 17 bytes before it),
`sfx = c exp=10 la=5\n`. The refilled memory is `key=abc exp=10 la=5\n` and four
zero bytes; the four calls on a new slice over the refilled window and on a fresh
slice over `key=abc exp=10 la=5\n` both return 0, 8, 15, 19, which delimit key
`abc`, expiry `10`, last access `5`. -/
theorem C9_fragmentation_fresh_slice_witness :
    (∃ mem2,
      (refillAfterCompaction (lit "key=x exp=1 la=2\nkey=ab" ++ [0])
        { MetaBufferSlice.new 0 23 with pending_data := 21 }
        (0 + 23 - (lit "key=ab").length) (lit "c exp=10 la=5\n")).1 = some mem2 ∧
      (runMetaScans mem2 (MetaBufferSlice.new 0 23) lineScans).1
        = (runMetaScans ([] ++ (lit "key=ab" ++ lit "c exp=10 la=5\n") ++ 0 :: [])
            (MetaBufferSlice.new 0 20) lineScans).1 ∧
      bytesBetween mem2 0 (0 + (lit "key=ab" ++ lit "c exp=10 la=5\n").length)
        = lit "key=ab" ++ lit "c exp=10 la=5\n") ∧
    (refillAfterCompaction (lit "key=x exp=1 la=2\nkey=ab" ++ [0])
        { MetaBufferSlice.new 0 23 with pending_data := 21 } 17 (lit "c exp=10 la=5\n")).1
      = some (lit "key=abc exp=10 la=5\n" ++ [0, 0, 0, 0]) ∧
    (runMetaScans (lit "key=abc exp=10 la=5\n" ++ [0, 0, 0, 0]) (MetaBufferSlice.new 0 23)
        lineScans).1
      = [some 0, some 8, some 15, some 19] ∧
    (runMetaScans (lit "key=abc exp=10 la=5\n" ++ [0]) (MetaBufferSlice.new 0 20) lineScans).1
      = [some 0, some 8, some 15, some 19] ∧
    bytesBetween (lit "key=abc exp=10 la=5\n" ++ [0]) (0 + 4) (8 - 1) = lit "abc" ∧
    bytesBetween (lit "key=abc exp=10 la=5\n" ++ [0]) (8 + 4) (15 - 1) = lit "10" ∧
    bytesBetween (lit "key=abc exp=10 la=5\n" ++ [0]) (15 + 3) 19 = lit "5" :=
  ⟨C9_fragmentation_fresh_slice (lit "key=x exp=1 la=2\nkey=ab" ++ [0])
      { MetaBufferSlice.new 0 23 with pending_data := 21 } (lit "key=ab") (lit "c exp=10 la=5\n")
      [] [] 20 lineScans (by decide) (by decide) (by decide) (by decide) (by decide) (by decide)
      (by decide) (by decide),
    by decide, by decide, by decide, by decide, by decide, by decide⟩

/-- C9, counterexample, the claim's witness `p = key=ab`, `s = c exp=10 la=5\n`.
(A) `p` is fed into a fresh slice over a zeroed window of 32 bytes: next_key_pos
returns 0, next_exp_pos null; the unconsumed record starts at the window start,
so CopyRemainingToStart(0) copies the window onto itself, for which `memcpy` has
no defined result, and buf_begin_fill() is then the window end 32, where no byte
of `s` fits. (B) `p` is the tail of the full window `key=x exp=1 la=2\nkey=ab`,
compacted from 17 (no overlap) and refilled: the window now starts with the whole
line, and the four calls on that same slice (cursor still 21) all return null. A
fresh slice holding the whole line returns 0, 8, 15, 19. -/
theorem C9_counterexample_same_slice :
    (runMetaScans (lit "key=ab" ++ List.replicate 58 0) (MetaBufferSlice.new 0 32)
        [.next_key_pos, .next_exp_pos]
      = ([some 0, none], { MetaBufferSlice.new 0 32 with pending_data := 4 }) ∧
     (refillAfterCompaction (lit "key=ab" ++ List.replicate 58 0)
        { MetaBufferSlice.new 0 32 with pending_data := 4 } 0 (lit "c exp=10 la=5\n")).1
      = none ∧
     (refillAfterCompaction (lit "key=ab" ++ List.replicate 58 0)
        { MetaBufferSlice.new 0 32 with pending_data := 4 } 0 (lit "c exp=10 la=5\n")).2.buf_begin_fill
      = 32 ∧
     (refillAfterCompaction (lit "key=ab" ++ List.replicate 58 0)
        { MetaBufferSlice.new 0 32 with pending_data := 4 } 0 (lit "c exp=10 la=5\n")).2.free_bytes
      = 0) ∧
    (refillAfterCompaction (lit "key=x exp=1 la=2\nkey=ab" ++ [0])
        { MetaBufferSlice.new 0 23 with pending_data := 21 } 17 (lit "c exp=10 la=5\n")
      = (some (lit "key=abc exp=10 la=5\n" ++ [0, 0, 0, 0]),
          { MetaBufferSlice.new 0 23 with pending_data := 21, start_copy_pos := 6 }) ∧
     (runMetaScans (lit "key=abc exp=10 la=5\n" ++ [0, 0, 0, 0])
        { MetaBufferSlice.new 0 23 with pending_data := 21, start_copy_pos := 6 } lineScans).1
      = [none, none, none, none]) ∧
    (runMetaScans (lit "key=abc exp=10 la=5\n" ++ List.replicate 12 0) (MetaBufferSlice.new 0 32)
        lineScans).1
      = [some 0, some 8, some 15, some 19] := by
  decide

/-- C10, counterexample: (1) the key `a` NUL `b`: the header announces 3 key
bytes and holds only `a`, and it does not decode to the record; (2) the value
length 2^32: the header decodes to value length 0. -/
theorem C10_counterexample_nul_key_and_long_value :
    decodeHeader (MemcachedUtils.CraftMetadataString
        { key := [97, 0, 98], expiry := 0, flags := 0, value_len := 3, get_complete := false,
          complete := false, get_attempts := 0 }) = none ∧
    decodeHeader (MemcachedUtils.CraftMetadataString
        { key := lit "foo", expiry := 0, flags := 0, value_len := 4294967296,
          get_complete := false, complete := false, get_attempts := 0 })
      = some { key := lit "foo", expiry := 0, flags := 0, value_len := 0 } := by
  decide

/-- C10 (amended): header round trip. For every record whose key has no zero byte
and fewer than 65536 bytes, whose expiry is a signed 32-bit value, whose flags are
a 16-bit value and whose value length is below 2^32, reading the output of
CraftMetadataString by the documented layout gives back the key, the expiry, the
flags and the value length. -/
theorem C10_header_round_trip (r : McData) (hk0 : ∀ b ∈ r.key, b ≠ 0)
    (hkl : r.key.length < 65536)
    (he : -2147483648 ≤ r.expiry ∧ r.expiry < 2147483648) (hf : r.flags < 65536)
    (hv : r.value_len < 4294967296) :
    decodeHeader (MemcachedUtils.CraftMetadataString r) = some r.header := by
  have hl := decodeHeader_layout (MemcachedUtils.ConvertIntToBytes (toInt32 r.key.length) 2) r.key
    (MemcachedUtils.ConvertIntToBytes r.expiry 4) (MemcachedUtils.ConvertUInt16ToBytes r.flags 4)
    (MemcachedUtils.ConvertIntToBytes (toInt32 r.value_len) 4)
    (ConvertIntToBytes_length_two _) (header_keylen_value _ hkl)
    (ConvertIntToBytes_length_four _) (ConvertUInt16ToBytes_length_four _)
    (ConvertIntToBytes_length_four _)
  rw [header_expiry_value _ he, header_flags_value _ hf, header_length_value _ hv] at hl
  unfold MemcachedUtils.CraftMetadataString
  rw [MemcachedUtils.c_str_of_no_nul r.key hk0]
  exact hl

/-- C10, witness: key `foo`, expiry -2, flags 258, value length 3. -/
theorem C10_header_round_trip_witness :
    decodeHeader (MemcachedUtils.CraftMetadataString
        { key := lit "foo", expiry := -2, flags := 258, value_len := 3, get_complete := false,
          complete := false, get_attempts := 0 })
      = some { key := lit "foo", expiry := -2, flags := 258, value_len := 3 } :=
  C10_header_round_trip
    { key := lit "foo", expiry := -2, flags := 258, value_len := 3, get_complete := false,
      complete := false, get_attempts := 0 }
    (by decide) (by decide) (by decide) (by decide) (by decide)

/-- C11: the layout of the record header. For every record whose key has no zero
byte and fewer than 65536 bytes and whose value length is below 2^31,
CraftMetadataString returns BE16(key length) ++ key ++ BE32(expiry in two's
complement) ++ BE32(flags) ++ BE32(value length), which has 14 + key length
bytes. -/
theorem C11_header_layout (r : McData) (hk0 : ∀ b ∈ r.key, b ≠ 0)
    (hkl : r.key.length < 65536) (hf : r.flags < 65536) (hv : r.value_len < 2147483648) :
    MemcachedUtils.CraftMetadataString r
      = BE16 r.key.length ++ r.key ++ BE32 (twosComplement32 r.expiry) ++ BE32 r.flags
          ++ BE32 r.value_len ∧
    (MemcachedUtils.CraftMetadataString r).length = 14 + r.key.length := by
  have h : MemcachedUtils.CraftMetadataString r
      = BE16 r.key.length ++ r.key ++ BE32 (twosComplement32 r.expiry) ++ BE32 r.flags
          ++ BE32 r.value_len := by
    unfold MemcachedUtils.CraftMetadataString
    rw [MemcachedUtils.c_str_of_no_nul r.key hk0, ConvertIntToBytes_two_BE16 _ hkl,
      ConvertIntToBytes_four_BE32, ConvertIntToBytes_four_BE32]
    have e : MemcachedUtils.ConvertUInt16ToBytes r.flags 4
        = MemcachedUtils.ConvertIntToBytes (r.flags : Int) 4 := rfl
    rw [e, ConvertIntToBytes_four_BE32, twosComplement32_cast _ (Nat.lt_trans hf (by decide)),
      twosComplement32_nat _ (Nat.lt_trans hv (by decide))]
  refine ⟨h, ?_⟩
  rw [h]
  simp only [List.length_append, BE16, BE32, List.length_cons, List.length_nil]
  omega

/-- C11, witness: key `foo`, expiry -2, flags 258, value length 3. -/
theorem C11_header_layout_witness :
    MemcachedUtils.CraftMetadataString
        { key := lit "foo", expiry := -2, flags := 258, value_len := 3, get_complete := false,
          complete := false, get_attempts := 0 }
      = [0, 3] ++ lit "foo" ++ [255, 255, 255, 254] ++ [0, 0, 1, 2] ++ [0, 0, 0, 3] ∧
    (MemcachedUtils.CraftMetadataString
        { key := lit "foo", expiry := -2, flags := 258, value_len := 3, get_complete := false,
          complete := false, get_attempts := 0 }).length = 14 + 3 :=
  C11_header_layout
    { key := lit "foo", expiry := -2, flags := 258, value_len := 3, get_complete := false,
      complete := false, get_attempts := 0 }
    (by decide) (by decide) (by decide) (by decide)

/-- C12, counterexample: the expiry -1 at time 100 with threshold 10. As integers
-1 ≤ 100 + 10, and KeyExpiresSoon returns false: its parameter is a `uint32_t`, in
which -1 is 4294967295. -/
theorem C12_counterexample_negative_expiry :
    ((-1 : Int) ≤ 100 + 10) ∧ MemcachedUtils.KeyExpiresSoonOf 10 100 (-1) = false := by
  decide

/-- C12 (amended): for every time `now`, every threshold and every key expiry,
with no condition on them, KeyExpiresSoon returns true if and only if
`expiry mod 2^32 ≤ (now + threshold) mod 2^64`. So for an expiry that is not
negative (a signed 32-bit value) and `0 ≤ now + threshold < 2^64` it returns true
if and only if `expiry ≤ now + threshold` as integers, and a negative signed
32-bit expiry `e` is compared as `e + 2^32`. -/
theorem C12_expires_soon (threshold now expiry : Int) :
    (MemcachedUtils.KeyExpiresSoonOf threshold now expiry = true ↔
      expiry % 4294967296 ≤ (now + threshold) % 18446744073709551616) ∧
    (0 ≤ expiry → expiry < 2147483648 → 0 ≤ now + threshold →
      now + threshold < 18446744073709551616 →
      (MemcachedUtils.KeyExpiresSoonOf threshold now expiry = true ↔
        expiry ≤ now + threshold)) ∧
    (-2147483648 ≤ expiry → expiry < 0 →
      (MemcachedUtils.KeyExpiresSoonOf threshold now expiry = true ↔
        expiry + 4294967296 ≤ (now + threshold) % 18446744073709551616)) := by
  unfold MemcachedUtils.KeyExpiresSoonOf MemcachedUtils.KeyExpiresSoon
    MemcachedUtils.OnlyExpireAfter toUInt64 toUInt32
  simp only [decide_eq_true_eq]
  refine ⟨?_, ?_, ?_⟩
  · omega
  · intro h1 h2 h3 h4
    omega
  · intro h1 h2
    omega

/-- C12, witness: at time 100 with threshold 10 the expiry 105 is soon and the
expiry 200 is not; the expiry -1 is compared as 4294967295 and is not soon. -/
theorem C12_expires_soon_witness :
    MemcachedUtils.KeyExpiresSoonOf 10 100 105 = true ∧
    MemcachedUtils.KeyExpiresSoonOf 10 100 200 = false ∧
    (MemcachedUtils.KeyExpiresSoonOf 10 100 (-1) = true ↔
      (-1 : Int) + 4294967296 ≤ (100 + 10) % 18446744073709551616) :=
  ⟨((C12_expires_soon 10 100 105).2.1 (by decide) (by decide) (by decide) (by decide)).mpr
      (by decide),
    by decide,
    (C12_expires_soon 10 100 (-1)).2.2 (by decide) (by decide)⟩

/-- C13: the pool bound. After a successful PreallocateChunks of `N` buffers on a
new manager (`malloc` returning a different address at every call), for every
sequence of GetBuffer and ReturnBuffer calls in which every ReturnBuffer returns
a buffer that is outstanding at that moment: at most `N` buffers are outstanding,
the length of the free list plus the number outstanding is `N`, a buffer that
GetBuffer returns next is not outstanding, and GetBuffer returns null exactly
when `N` buffers are outstanding. -/
theorem C13_pool_bound (chunk_size : Nat) (num_chunks : Int) (malloc : Nat → Option Nat)
    (m : MemoryManager)
    (hpre : (MemoryManager.new chunk_size num_chunks).PreallocateChunks malloc = (Status.OK, m))
    (hinj : ∀ i j b, malloc i = some b → malloc j = some b → i = j)
    (cs : List PoolCall) (hv : PoolState.Valid { mgr := m, outstanding := [] } cs) :
    (PoolState.run { mgr := m, outstanding := [] } cs).outstanding.length ≤ num_chunks.toNat ∧
    (PoolState.run { mgr := m, outstanding := [] } cs).mgr.free_buffers.length
      + (PoolState.run { mgr := m, outstanding := [] } cs).outstanding.length
      = num_chunks.toNat ∧
    (∀ b, (PoolState.run { mgr := m, outstanding := [] } cs).mgr.GetBuffer.1 = some b →
      b ∉ (PoolState.run { mgr := m, outstanding := [] } cs).outstanding) ∧
    ((PoolState.run { mgr := m, outstanding := [] } cs).mgr.GetBuffer.1 = none ↔
      (PoolState.run { mgr := m, outstanding := [] } cs).outstanding.length
        = num_chunks.toNat) := by
  have hall := MemoryManager.PreallocateLoop_ok_all malloc num_chunks.toNat _ m hpre
  have hm := MemoryManager.PreallocateLoop_ok malloc num_chunks.toNat 0
    (MemoryManager.new chunk_size num_chunks) hall
  have hpre' : MemoryManager.PreallocateLoop malloc 0 num_chunks.toNat
      (MemoryManager.new chunk_size num_chunks) = (Status.OK, m) := hpre
  rw [hm] at hpre'
  have hfree : m.free_buffers = (List.range' 0 num_chunks.toNat).filterMap malloc := by
    have := congrArg (fun p => p.2.free_buffers) hpre'
    simpa [MemoryManager.new] using this.symm
  have hlen : m.free_buffers.length = num_chunks.toNat := by
    rw [hfree]; exact MemoryManager.filterMap_range'_length malloc _ 0 hall
  have hnd : m.free_buffers.Nodup := by
    rw [hfree]
    refine List.Nodup.filterMap ?_ (List.nodup_range' 0 _)
    intro a a' b hb hb'
    exact hinj a a' b (by simpa using hb) (by simpa using hb')
  have hinv : PoolInv m.free_buffers { mgr := m, outstanding := [] } := by
    unfold PoolInv
    simp
  have hrun := PoolInv_run m.free_buffers cs _ hinv hv
  generalize PoolState.run { mgr := m, outstanding := [] } cs = s at hrun
  unfold PoolInv at hrun
  have hl := hrun.length_eq
  rw [List.length_append, hlen] at hl
  have hnd' : (s.mgr.free_buffers ++ s.outstanding).Nodup := hrun.nodup_iff.mpr hnd
  refine ⟨by omega, hl, ?_, ?_⟩
  · intro b hb
    cases hf : s.mgr.free_buffers with
    | nil => simp [MemoryManager.GetBuffer, hf] at hb
    | cons b' rest =>
      simp [MemoryManager.GetBuffer, hf] at hb
      subst hb
      rw [hf] at hnd'
      have := (List.nodup_cons.mp hnd').1
      intro hmem
      exact this (List.mem_append_right _ hmem)
  · cases hf : s.mgr.free_buffers with
    | nil =>
      rw [hf] at hl
      simp [MemoryManager.GetBuffer, hf]
      simpa using hl
    | cons b' rest =>
      rw [hf] at hl
      simp [MemoryManager.GetBuffer, hf]
      simp at hl
      omega

/-- C13, witness: a pool of two buffers at the addresses 1000 and 2000; both are
taken, a third GetBuffer returns null, the first is returned and taken again. -/
theorem C13_pool_bound_witness :
    (PoolState.run
        { mgr := { chunk_size := 16, num_chunks := 2, free_buffers := [1000, 2000] },
          outstanding := [] }
        [.get, .get, .get, .ret 1000, .get]).outstanding.length ≤ 2 ∧
    (PoolState.run
        { mgr := { chunk_size := 16, num_chunks := 2, free_buffers := [1000, 2000] },
          outstanding := [] }
        [.get, .get, .get, .ret 1000, .get]).mgr.free_buffers.length
      + (PoolState.run
        { mgr := { chunk_size := 16, num_chunks := 2, free_buffers := [1000, 2000] },
          outstanding := [] }
        [.get, .get, .get, .ret 1000, .get]).outstanding.length = 2 ∧
    (∀ b, (PoolState.run
        { mgr := { chunk_size := 16, num_chunks := 2, free_buffers := [1000, 2000] },
          outstanding := [] }
        [.get, .get, .get, .ret 1000, .get]).mgr.GetBuffer.1 = some b →
      b ∉ (PoolState.run
        { mgr := { chunk_size := 16, num_chunks := 2, free_buffers := [1000, 2000] },
          outstanding := [] }
        [.get, .get, .get, .ret 1000, .get]).outstanding) ∧
    ((PoolState.run
        { mgr := { chunk_size := 16, num_chunks := 2, free_buffers := [1000, 2000] },
          outstanding := [] }
        [.get, .get, .get, .ret 1000, .get]).mgr.GetBuffer.1 = none ↔
      (PoolState.run
        { mgr := { chunk_size := 16, num_chunks := 2, free_buffers := [1000, 2000] },
          outstanding := [] }
        [.get, .get, .get, .ret 1000, .get]).outstanding.length = 2) :=
  C13_pool_bound 16 2 (fun i => some (1000 * (i + 1)))
    { chunk_size := 16, num_chunks := 2, free_buffers := [1000, 2000] }
    (by decide)
    (by intro i j b hi hj
        simp only [Option.some.injEq] at hi hj
        omega)
    [.get, .get, .get, .ret 1000, .get]
    (by decide)

/-- C14: the free list is a first-in-first-out queue. For every manager with free
list `q` and all buffers `b1`, `b2`, after ReturnBuffer(b1) and ReturnBuffer(b2)
the next `|q| + 2` calls of GetBuffer return the elements of `q` in their order,
then `b1`, then `b2`, and leave the free list empty; with `q` empty the two calls
return `b1` and `b2`. -/
theorem C14_pool_fifo (m : MemoryManager) (b1 b2 : Nat) :
    MemoryManager.GetBuffers (m.free_buffers.length + 2) ((m.ReturnBuffer b1).ReturnBuffer b2)
      = ((m.free_buffers ++ [b1, b2]).map some, { m with free_buffers := [] }) ∧
    (m.free_buffers = [] →
      (MemoryManager.GetBuffers 2 ((m.ReturnBuffer b1).ReturnBuffer b2)).1
        = [some b1, some b2]) := by
  have h := MemoryManager.GetBuffers_all (m.free_buffers ++ [b1, b2])
    ((m.ReturnBuffer b1).ReturnBuffer b2)
    (by simp [MemoryManager.ReturnBuffer, List.append_assoc])
  have hl : (m.free_buffers ++ [b1, b2]).length = m.free_buffers.length + 2 := by simp
  rw [hl] at h
  refine ⟨h, ?_⟩
  intro hq
  rw [hq] at h
  simpa using congrArg Prod.fst h

/-- C15: the result of preallocation, `malloc j` being the outcome of the `j`-th
allocation. With `N` the configured count: when every one of the `N` allocations
succeeds PreallocateChunks returns OK and the free list has the `N` buffers
appended; when allocation `i < N` is the first to fail it returns the
out-of-memory status and the `i` buffers allocated before stay appended to the
free list; for a count that is zero or negative it returns OK and changes
nothing. -/
theorem C15_preallocate (malloc : Nat → Option Nat) (m : MemoryManager) :
    ((∀ j, j < m.num_chunks.toNat → (malloc j).isSome = true) →
      m.PreallocateChunks malloc
        = (Status.OK,
            { m with free_buffers :=
                m.free_buffers ++ (List.range m.num_chunks.toNat).filterMap malloc }) ∧
      ((List.range m.num_chunks.toNat).filterMap malloc).length = m.num_chunks.toNat) ∧
    (∀ i, i < m.num_chunks.toNat → (∀ j, j < i → (malloc j).isSome = true) →
      malloc i = none →
      m.PreallocateChunks malloc
        = (Status.OutOfMemoryError,
            { m with free_buffers := m.free_buffers ++ (List.range i).filterMap malloc }) ∧
      ((List.range i).filterMap malloc).length = i) ∧
    (m.num_chunks ≤ 0 → m.PreallocateChunks malloc = (Status.OK, m)) := by
  refine ⟨?_, ?_, ?_⟩
  · intro h
    have h' : ∀ j, j < m.num_chunks.toNat → (malloc (0 + j)).isSome = true := by
      intro j hj; rw [Nat.zero_add]; exact h j hj
    rw [List.range_eq_range']
    exact ⟨MemoryManager.PreallocateLoop_ok malloc _ 0 m h',
      MemoryManager.filterMap_range'_length malloc _ 0 h'⟩
  · intro i hi h hn
    have h' : ∀ j, j < i → (malloc (0 + j)).isSome = true := by
      intro j hj; rw [Nat.zero_add]; exact h j hj
    rw [List.range_eq_range']
    exact ⟨MemoryManager.PreallocateLoop_fail malloc i _ 0 m hi h'
        (by rw [Nat.zero_add]; exact hn),
      MemoryManager.filterMap_range'_length malloc _ 0 h'⟩
  · intro h
    have h0 : m.num_chunks.toNat = 0 := by omega
    unfold MemoryManager.PreallocateChunks
    rw [h0]
    rfl

/-- C15, witness: a count of 3 where the allocations 0 and 1 succeed (addresses
1000, 2000) and allocation 2 fails: out of memory, and the two buffers stay in the
free list. -/
theorem C15_preallocate_witness :
    MemoryManager.PreallocateChunks (fun j => if j < 2 then some (1000 * (j + 1)) else none)
        (MemoryManager.new 16 3)
      = (Status.OutOfMemoryError,
          { chunk_size := 16, num_chunks := 3, free_buffers := [1000, 2000] }) :=
  ((C15_preallocate (fun j => if j < 2 then some (1000 * (j + 1)) else none)
      (MemoryManager.new 16 3)).2.1 2 (by decide) (by decide) (by decide)).1

/-- C16, counterexample: a record whose counter is 2147483647, the largest `int`.
PossiblyEvicted() is true; set_get_complete(false) cannot add one to the counter,
it becomes -2147483648, and PossiblyEvicted() is false afterwards. -/
theorem C16_counterexample_counter_at_int_max :
    McData.PossiblyEvicted
        { key := lit "foo", expiry := 0, flags := 0, value_len := 3, get_complete := false,
          complete := false, get_attempts := 2147483647 } = true ∧
    (McData.set_get_complete
        { key := lit "foo", expiry := 0, flags := 0, value_len := 3, get_complete := false,
          complete := false, get_attempts := 2147483647 } false).get_attempts
      = -2147483648 ∧
    McData.PossiblyEvicted
        (McData.set_get_complete
          { key := lit "foo", expiry := 0, flags := 0, value_len := 3, get_complete := false,
            complete := false, get_attempts := 2147483647 } false) = false := by
  decide

/-- C16 (amended): the eviction bound. On a record whose counter is 0, after `n`
calls of set_get_complete with any arguments, `n < 2^31`, the counter is `n` and
PossiblyEvicted() holds if and only if `n ≥ 3`. PossiblyEvicted() is true if and
only if the counter is at least 3 (MAX_GET_ATTEMPTS); a call set_get_complete(b) on
a counter below 2147483647 adds exactly one to it, sets get_complete to `b` and
changes nothing else, and keeps PossiblyEvicted() true if it was. -/
theorem C16_eviction_bound (r : McData) (bs : List Bool) (h0 : r.get_attempts = 0)
    (hn : bs.length < 2147483648) :
    (r.set_get_complete_all bs).get_attempts = bs.length ∧
    ((r.set_get_complete_all bs).PossiblyEvicted = true ↔ 3 ≤ bs.length) ∧
    (∀ r' : McData, r'.PossiblyEvicted = true ↔ r'.get_attempts ≥ 3) ∧
    (∀ (r' : McData) (b : Bool), -2147483648 ≤ r'.get_attempts → r'.get_attempts < 2147483647 →
      r'.set_get_complete b
          = { r' with get_attempts := r'.get_attempts + 1, get_complete := b } ∧
        (r'.PossiblyEvicted = true → (r'.set_get_complete b).PossiblyEvicted = true)) := by
  have ha : (r.set_get_complete_all bs).get_attempts = bs.length := by
    have := McData.set_get_complete_all_attempts bs r (by omega) (by omega)
    rw [this, h0]
    omega
  have hp : ∀ r' : McData, r'.PossiblyEvicted = true ↔ r'.get_attempts ≥ 3 := by
    intro r'
    simp [McData.PossiblyEvicted, MAX_GET_ATTEMPTS]
  refine ⟨ha, ?_, hp, ?_⟩
  · rw [hp, ha]
    omega
  · intro r' b h1 h2
    have hs := McData.set_get_complete_attempts r' b h1 h2
    refine ⟨hs, ?_⟩
    intro he
    rw [hp] at he ⊢
    rw [hs]
    show r'.get_attempts + 1 ≥ 3
    omega

/-- C16, witness: a record with counter 0; after the calls with the arguments
false, false, true the counter is 3 and PossiblyEvicted() is true; after two
calls it is false. -/
theorem C16_eviction_bound_witness :
    (McData.set_get_complete_all
        { key := lit "foo", expiry := 0, flags := 0, value_len := 3, get_complete := false,
          complete := false, get_attempts := 0 } [false, false, true]).get_attempts = 3 ∧
    McData.PossiblyEvicted (McData.set_get_complete_all
        { key := lit "foo", expiry := 0, flags := 0, value_len := 3, get_complete := false,
          complete := false, get_attempts := 0 } [false, false, true]) = true ∧
    McData.PossiblyEvicted (McData.set_get_complete_all
        { key := lit "foo", expiry := 0, flags := 0, value_len := 3, get_complete := false,
          complete := false, get_attempts := 0 } [false, false]) = false :=
  ⟨(C16_eviction_bound
      { key := lit "foo", expiry := 0, flags := 0, value_len := 3, get_complete := false,
        complete := false, get_attempts := 0 } [false, false, true] rfl (by decide)).1,
    (C16_eviction_bound
      { key := lit "foo", expiry := 0, flags := 0, value_len := 3, get_complete := false,
        complete := false, get_attempts := 0 } [false, false, true] rfl (by decide)).2.1.mpr
      (by decide),
    by decide⟩

/-- C17, counterexample: a window of 2^32 bytes that starts with `VALUE `, the
cursor at its start. bytes_pending() is 0, not `window_end - cursor` = 2^32, and
next_value_delim returns null although `VALUE ` stands at the cursor. -/
theorem C17_counterexample_4GiB_pending :
    (lit "VALUE " ++ List.replicate 4294967290 0).length = 4294967296 ∧
    (lit "VALUE ").isPrefixOf (lit "VALUE " ++ List.replicate 4294967290 0) = true ∧
    (DataBufferSlice.new 0 4294967296).bytes_pending = 0 ∧
    ((DataBufferSlice.new 0 4294967296).next_value_delim
        (lit "VALUE " ++ List.replicate 4294967290 0)).1 = none := by
  refine ⟨?_, ?_, by decide, ?_⟩
  · rw [List.length_append, List.length_replicate, lit_value]
    rfl
  · rw [List.isPrefixOf_iff_prefix]
    exact List.prefix_append _ _
  · have hb : toSizeT (DataBufferSlice.bytes_pending (DataBufferSlice.new 0 4294967296)) = 0 := by
      decide
    simp only [DataBufferSlice.next_value_delim, hb, memmem, List.take_zero]
    rfl

/-- C17 (amended): the bounded marker scan. For every memory and every
DataBufferSlice with `cursor ≤ window_end` and fewer than 2^31 bytes between them,
`W` being the bytes of `[cursor, window_end)`: bytes_pending() is `window_end -
cursor`; next_value_delim returns `pos` exactly when `pos = cursor + k` for the
first offset `k` at which `VALUE ` stands in `W`; then `pos + 6 ≤ window_end`,
the cursor is set to `pos + 6` and the state is stepped; it returns null with the
object unchanged when there is no such offset; and the call gives the same result
on every memory that has the same bytes `W`. -/
theorem C17_bounded_marker_scan (mem : List Nat) (s : DataBufferSlice)
    (h1 : s.pending_data ≤ s.data + s.size)
    (h2 : s.data + s.size - s.pending_data < 2147483648) :
    s.bytes_pending = ((s.data + s.size - s.pending_data : Nat) : Int) ∧
    (∀ pos, (s.next_value_delim mem).1 = some pos ↔
      ∃ k, pos = s.pending_data + k ∧
        (lit "VALUE ").isPrefixOf
          ((bytesBetween mem s.pending_data (s.data + s.size)).drop k) = true ∧
        ∀ i, i < k → (lit "VALUE ").isPrefixOf
          ((bytesBetween mem s.pending_data (s.data + s.size)).drop i) = false) ∧
    (∀ pos, (s.next_value_delim mem).1 = some pos →
      pos + 6 ≤ s.data + s.size ∧
      (s.next_value_delim mem).2
        = { s with pending_data := pos + 6,
                   parse_state := DataBufferSlice.nextState s.parse_state }) ∧
    ((s.next_value_delim mem).1 = none → (s.next_value_delim mem).2 = s) ∧
    (∀ mem', bytesBetween mem' s.pending_data (s.data + s.size)
        = bytesBetween mem s.pending_data (s.data + s.size) →
      s.next_value_delim mem' = s.next_value_delim mem) := by
  have hW : (bytesBetween mem s.pending_data (s.data + s.size)).length
      ≤ s.data + s.size - s.pending_data := by
    unfold bytesBetween
    rw [List.length_take]
    exact Nat.min_le_left _ _
  refine ⟨(DataBufferSlice.bytes_pending_eq s h1 h2).1, ?_, ?_, ?_, ?_⟩
  · intro pos
    rw [DataBufferSlice.next_value_delim_eq mem s h1 h2]
    cases hr : memmemFrom (lit "VALUE ") (bytesBetween mem s.pending_data (s.data + s.size)) with
    | none =>
      constructor
      · intro h; cases h
      · rintro ⟨k, _, hk1, hk2⟩
        have := (memmemFrom_iff _ _ k).mpr ⟨hk1, hk2⟩
        rw [hr] at this
        cases this
    | some j =>
      constructor
      · intro h
        have hj : j + s.pending_data = pos := by simpa using h
        obtain ⟨a, b⟩ := (memmemFrom_iff _ _ j).mp hr
        exact ⟨j, by omega, a, b⟩
      · rintro ⟨k, hk0, hk1, hk2⟩
        have := (memmemFrom_iff _ _ k).mpr ⟨hk1, hk2⟩
        rw [hr] at this
        have hjk : j = k := by simpa using this
        show some (j + s.pending_data) = some pos
        rw [hjk, hk0, Nat.add_comm]
  · intro pos
    rw [DataBufferSlice.next_value_delim_eq mem s h1 h2]
    cases hr : memmemFrom (lit "VALUE ") (bytesBetween mem s.pending_data (s.data + s.size)) with
    | none => intro h; cases h
    | some j =>
      intro h
      have hj : j + s.pending_data = pos := by simpa using h
      have hb := (memmemFrom_bound _ _ j hr).1
      rw [lit_value] at hb
      simp only [List.length_cons, List.length_nil] at hb
      subst hj
      exact ⟨by omega, rfl⟩
  · rw [DataBufferSlice.next_value_delim_eq mem s h1 h2]
    cases hr : memmemFrom (lit "VALUE ") (bytesBetween mem s.pending_data (s.data + s.size)) with
    | none => intro _; rfl
    | some j => intro h; cases h
  · intro mem' hm
    rw [DataBufferSlice.next_value_delim_eq mem s h1 h2,
      DataBufferSlice.next_value_delim_eq mem' s h1 h2, hm]

/-- C17, witness: the fresh slice over `VALUE foo 0 3\r\nbar\r\nEND\r\n`: 25 bytes
pending, `VALUE ` found at 0, cursor moved to 6. -/
theorem C17_bounded_marker_scan_witness :
    (DataBufferSlice.new 0 25).bytes_pending = 25 ∧
    (DataBufferSlice.new 0 25).next_value_delim (lit "VALUE foo 0 3\r\nbar\r\nEND\r\n")
      = (some 0, { DataBufferSlice.new 0 25 with pending_data := 6, parse_state := .KEY_NAME }) ∧
    (DataBufferSlice.new 0 25).next_value_delim (lit "VALUE foo 0 3\r\nbar\r\nEND\r\nVALUE ")
      = (DataBufferSlice.new 0 25).next_value_delim (lit "VALUE foo 0 3\r\nbar\r\nEND\r\n") :=
  ⟨(C17_bounded_marker_scan (lit "VALUE foo 0 3\r\nbar\r\nEND\r\n") (DataBufferSlice.new 0 25)
      (by decide) (by decide)).1,
    by decide,
    (C17_bounded_marker_scan (lit "VALUE foo 0 3\r\nbar\r\nEND\r\n") (DataBufferSlice.new 0 25)
      (by decide) (by decide)).2.2.2.2 (lit "VALUE foo 0 3\r\nbar\r\nEND\r\nVALUE ") (by decide)⟩

/-- C18: the terminal markers. For every memory and every DataBufferSlice of size
at least 7, reached_end() is true if and only if the last five bytes of the window
are `END\r\n`, reached_error() is true if and only if the last seven bytes of the
window are `ERROR\r\n`, and the two are never true together. (Both are functions
of the memory and the object alone: they return a `bool` and store nothing.) -/
theorem C18_terminal_markers (mem : List Nat) (s : DataBufferSlice) (hs : 7 ≤ s.size) :
    (s.reached_end mem = true ↔
      bytesBetween mem (s.data + s.size - 5) (s.data + s.size) = lit "END\r\n") ∧
    (s.reached_error mem = true ↔
      bytesBetween mem (s.data + s.size - 7) (s.data + s.size) = lit "ERROR\r\n") ∧
    ¬ (s.reached_end mem = true ∧ s.reached_error mem = true) := by
  have hE : s.reached_end mem = true ↔
      bytesBetween mem (s.data + s.size - 5) (s.data + s.size) = lit "END\r\n" := by
    have h := strncmpIsZero_literal (lit "END\r\n") (by decide)
      (memAt mem (((s.data + s.size : Nat) : Int) - (5 : Nat)))
    rw [show (lit "END\r\n").length = 5 from rfl, memAt_window_tail mem _ 5 (by omega)] at h
    have e : DataBufferSlice.reached_end mem s
        = strncmpIsZero (memAt mem (((s.data + s.size : Nat) : Int) - (5 : Nat)))
            (lit "END\r\n") 5 := by
      unfold DataBufferSlice.reached_end
      congr 2
    rw [e]
    exact h
  have hR : s.reached_error mem = true ↔
      bytesBetween mem (s.data + s.size - 7) (s.data + s.size) = lit "ERROR\r\n" := by
    have h := strncmpIsZero_literal (lit "ERROR\r\n") (by decide)
      (memAt mem (((s.data + s.size : Nat) : Int) - (7 : Nat)))
    rw [show (lit "ERROR\r\n").length = 7 from rfl, memAt_window_tail mem _ 7 (by omega)] at h
    have e : DataBufferSlice.reached_error mem s
        = strncmpIsZero (memAt mem (((s.data + s.size : Nat) : Int) - (7 : Nat)))
            (lit "ERROR\r\n") 7 := by
      unfold DataBufferSlice.reached_error
      congr 2
    rw [e]
    exact h
  refine ⟨hE, hR, ?_⟩
  rintro ⟨h1, h2⟩
  rw [hE] at h1
  rw [hR] at h2
  unfold bytesBetween at h1 h2
  have e5 : s.data + s.size - (s.data + s.size - 5) = 5 := by omega
  have e7 : s.data + s.size - (s.data + s.size - 7) = 7 := by omega
  rw [e5] at h1
  rw [e7] at h2
  have hd : mem.drop (s.data + s.size - 5) = (mem.drop (s.data + s.size - 7)).drop 2 := by
    rw [List.drop_drop]
    congr 1
    omega
  rw [hd] at h1
  have h3 : ((mem.drop (s.data + s.size - 7)).take 7).drop 2
      = ((mem.drop (s.data + s.size - 7)).drop 2).take 5 := by
    rw [List.drop_take]
  rw [h2, h1] at h3
  revert h3
  decide

/-- C18, witness: the 25-byte window `VALUE foo 0 3\r\nbar\r\nEND\r\n` has reached
the end and not the error. -/
theorem C18_terminal_markers_witness :
    DataBufferSlice.reached_end (lit "VALUE foo 0 3\r\nbar\r\nEND\r\n")
        (DataBufferSlice.new 0 25) = true ∧
    DataBufferSlice.reached_error (lit "VALUE foo 0 3\r\nbar\r\nEND\r\n")
        (DataBufferSlice.new 0 25) = false :=
  ⟨(C18_terminal_markers (lit "VALUE foo 0 3\r\nbar\r\nEND\r\n") (DataBufferSlice.new 0 25)
      (by decide)).1.mpr (by decide),
    by decide⟩

/-- C19: the flags slot. For every 16-bit flags value `f` and every width `k ≤ 4`,
ConvertUInt16ToBytes(f, k) is ConvertIntToBytes(f, k); the 4-byte flags slot of the
record header is two zero bytes followed by the big-endian 16-bit value of
`f`. -/
theorem C19_flags_slot (f k : Nat) (hf : f < 65536) (hk : k ≤ 4) :
    MemcachedUtils.ConvertUInt16ToBytes f k = MemcachedUtils.ConvertIntToBytes (f : Int) k ∧
    (MemcachedUtils.ConvertUInt16ToBytes f k).length = k ∧
    MemcachedUtils.ConvertUInt16ToBytes f 4 = [0, 0] ++ BE16 f := by
  have e : ∀ j, MemcachedUtils.ConvertUInt16ToBytes f j
      = MemcachedUtils.ConvertIntToBytes (f : Int) j := fun _ => rfl
  refine ⟨e k, ?_, ?_⟩
  · rw [e, ConvertIntToBytes_eq_bigEndianBytes _ k hk, bigEndianBytes_length]
  · rw [e, ConvertIntToBytes_four_BE32, twosComplement32_cast f (by omega)]
    simp only [BE32, BE16, List.cons_append, List.nil_append]
    have h1 : f / 16777216 % 256 = 0 := by omega
    have h2 : f / 65536 % 256 = 0 := by omega
    rw [h1, h2]

/-- C19, witness: the flags value 258 in the 4-byte slot is 0, 0, 1, 2. -/
theorem C19_flags_slot_witness :
    MemcachedUtils.ConvertUInt16ToBytes 258 4 = MemcachedUtils.ConvertIntToBytes 258 4 ∧
    (MemcachedUtils.ConvertUInt16ToBytes 258 4).length = 4 ∧
    MemcachedUtils.ConvertUInt16ToBytes 258 4 = [0, 0] ++ [1, 2] :=
  C19_flags_slot 258 4 (by decide) (by decide)

/-- C20: width trimming. For every `n` (so every signed 32-bit `n`) and every width
`k ≤ 4`,
ConvertIntToBytes(n, k) is a string of `k` bytes, the big-endian base-256
representation of `n mod 2^(8k)` (the two's complement of a negative `n`); its
big-endian value is `n mod 2^(8k)`, and two inputs give the same string if and
only if they are congruent modulo `2^(8k)`. -/
theorem C20_width_trimming (n : Int) (k : Nat) (hk : k ≤ 4) :
    (MemcachedUtils.ConvertIntToBytes n k).length = k ∧
    (∀ b ∈ MemcachedUtils.ConvertIntToBytes n k, b < 256) ∧
    MemcachedUtils.ConvertIntToBytes n k = bigEndianBytes k (n % 256 ^ k).toNat ∧
    ((bigEndian (MemcachedUtils.ConvertIntToBytes n k) : Nat) : Int) = n % 256 ^ k ∧
    (∀ n' : Int,
      (MemcachedUtils.ConvertIntToBytes n k = MemcachedUtils.ConvertIntToBytes n' k ↔
        n % 256 ^ k = n' % 256 ^ k)) := by
  have hval : ∀ x : Int,
      ((bigEndian (MemcachedUtils.ConvertIntToBytes x k) : Nat) : Int) = x % 256 ^ k := by
    intro x
    have hpos : (0 : Int) < 256 ^ k := by positivity
    have h0 : 0 ≤ x % 256 ^ k := Int.emod_nonneg _ (by omega)
    have hlt : x % 256 ^ k < 256 ^ k := Int.emod_lt_of_pos _ hpos
    have hm : (x % 256 ^ k).toNat < 256 ^ k := by
      have : ((x % 256 ^ k).toNat : Int) < ((256 ^ k : Nat) : Int) := by
        rw [Int.toNat_of_nonneg h0]
        push_cast
        exact hlt
      exact_mod_cast this
    rw [ConvertIntToBytes_eq_bigEndianBytes x k hk, bigEndian_bigEndianBytes k _ hk hm,
      Int.toNat_of_nonneg h0]
  refine ⟨?_, ?_, ConvertIntToBytes_eq_bigEndianBytes n k hk, hval n, ?_⟩
  · rw [ConvertIntToBytes_eq_bigEndianBytes n k hk, bigEndianBytes_length]
  · rw [ConvertIntToBytes_eq_bigEndianBytes n k hk]
    exact bigEndianBytes_lt _ _
  · intro n'
    constructor
    · intro h
      rw [← hval n, ← hval n', h]
    · intro h
      rw [ConvertIntToBytes_eq_bigEndianBytes n k hk, ConvertIntToBytes_eq_bigEndianBytes n' k hk,
        h]

/-- C20, witness: -2 in 2 bytes is 255, 254, the same as 65534 in 2 bytes, and
258 in 1 byte is 2. -/
theorem C20_width_trimming_witness :
    MemcachedUtils.ConvertIntToBytes (-2) 2 = [255, 254] ∧
    (MemcachedUtils.ConvertIntToBytes (-2) 2 = MemcachedUtils.ConvertIntToBytes 65534 2 ↔
      (-2 : Int) % 256 ^ 2 = 65534 % 256 ^ 2) ∧
    MemcachedUtils.ConvertIntToBytes 258 1 = [2] :=
  ⟨by decide,
    (C20_width_trimming (-2) 2 (by decide)).2.2.2.2 65534,
    by decide⟩

end memcachedumper
